import Mathlib

/-!
# jdtls-wrapper

A verification development for `main.go`, the relay that sits between an LSP
client and the `jdtls` language server.

The embedding follows the source:

* Go `string` and `[]byte` values are lists of bytes (`Bytes`); a byte is a
  natural number below 256.
* Go `int` and `int64` are 64 bit two's complement integers, modelled as `Int`
  with explicit wrap-around where arithmetic can overflow.
* A `*bufio.Reader` is the list of bytes that are still unread; when the list
  is exhausted the underlying stream reports `io.EOF`.
* A run-time panic is an explicit outcome of the functions that can raise one.
* Writes to `os.Stderr` (the diagnostic channel) have no influence on control
  flow and are not part of the model.
* The two loops of `run` are modelled by one iteration each (`clientStep`,
  `serverStep`), a function of the shared tables and of the payload that
  `readLSPMessage` returned; `run` threads the tables through a sequence of
  arriving frames. The function literal stored in `pending` is the data it
  captures (`Closure`) together with its body (`callback`).
* The calls into `encoding/json`, `net/url`, `strconv.Unquote` and
  `filepath.Dir` are a parameter of the pipelines (`Library`). The general
  theorems hold for every implementation of these calls; the concrete
  evaluations use the model `golib` of them that is defined here.
-/

namespace JdtlsWrapper

/-! ## Bytes and basic library functions used by the frame codec -/

/-- A Go `string` or `[]byte`. -/
abbrev Bytes := List Nat

/-- The bytes of an ASCII string literal. -/
def ascii (s : String) : Bytes := s.toList.map Char.toNat

/-- The `error` values that `readLSPMessage` can return. -/
inductive Error
  | EOF
  | ErrUnexpectedEOF
  | NumError
  deriving DecidableEq, Repr

/-- Method `ReadString(delim)` of `*bufio.Reader`, on a reader whose unread input is the
argument: the bytes up to and including the first `delim`, the error (`io.EOF` when the
input ends before a delimiter is found, together with the bytes read so far), and the
input that is left. -/
def ReadString (delim : Nat) : Bytes → Bytes × Option Error × Bytes
  | [] => ([], some Error.EOF, [])
  | c :: r =>
    if c = delim then ([c], none, r)
    else
      let res := ReadString delim r
      (c :: res.1, res.2.1, res.2.2)

/-- Go `strings.HasPrefix`. -/
def HasPrefix (s p : Bytes) : Bool := p.isPrefixOf s

/-- Go `strings.HasSuffix`. -/
def HasSuffix (s p : Bytes) : Bool := p.isSuffixOf s

/-- Go `strings.TrimSuffix`. -/
def TrimSuffix (s suffix : Bytes) : Bytes :=
  if HasSuffix s suffix then s.take (s.length - suffix.length) else s

/-- Go `utf8.RuneError`, U+FFFD. -/
def RuneError : Nat := 0xFFFD

/-- A UTF-8 continuation byte. -/
def isCont (b : Nat) : Bool := 0x80 ≤ b && b ≤ 0xBF

/-- Go `utf8.DecodeRune` / `utf8.DecodeRuneInString`: the first rune of the input and its
width in bytes; `(RuneError, 1)` for an invalid encoding and `(RuneError, 0)` for the
empty input. -/
def DecodeRune : Bytes → Nat × Nat
  | [] => (RuneError, 0)
  | s0 :: t =>
    if s0 < 0x80 then (s0, 1)
    else if s0 < 0xC2 then (RuneError, 1)
    else if s0 < 0xE0 then
      match t with
      | s1 :: _ => if isCont s1 then ((s0 % 32) * 64 + s1 % 64, 2) else (RuneError, 1)
      | [] => (RuneError, 1)
    else if s0 < 0xF0 then
      match t with
      | s1 :: s2 :: _ =>
        if (if s0 = 0xE0 then 0xA0 else 0x80) ≤ s1 ∧ s1 ≤ (if s0 = 0xED then 0x9F else 0xBF)
            ∧ isCont s2 then
          ((s0 % 16) * 4096 + (s1 % 64) * 64 + s2 % 64, 3)
        else (RuneError, 1)
      | _ => (RuneError, 1)
    else if s0 < 0xF5 then
      match t with
      | s1 :: s2 :: s3 :: _ =>
        if (if s0 = 0xF0 then 0x90 else 0x80) ≤ s1 ∧ s1 ≤ (if s0 = 0xF4 then 0x8F else 0xBF)
            ∧ isCont s2 ∧ isCont s3 then
          ((s0 % 8) * 262144 + (s1 % 64) * 4096 + (s2 % 64) * 64 + s3 % 64, 4)
        else (RuneError, 1)
      | _ => (RuneError, 1)
    else (RuneError, 1)

/-- Go `utf8.RuneStart`. -/
def RuneStart (b : Nat) : Bool := !isCont b

/-- Go `utf8.DecodeLastRune` / `utf8.DecodeLastRuneInString`. -/
def DecodeLastRune (s : Bytes) : Nat × Nat :=
  let n := s.length
  if n = 0 then (RuneError, 0)
  else
    let last := s.getD (n - 1) 0
    if last < 0x80 then (last, 1)
    else
      let start :=
        if 2 ≤ n ∧ RuneStart (s.getD (n - 2) 0) then n - 2
        else if 3 ≤ n ∧ RuneStart (s.getD (n - 3) 0) then n - 3
        else if 4 ≤ n ∧ RuneStart (s.getD (n - 4) 0) then n - 4
        else n - 5
      let d := DecodeRune (s.drop start)
      if start + d.2 = n then d else (RuneError, 1)

/-- Go `unicode.IsSpace`. -/
def IsSpace (r : Nat) : Bool :=
  r = 0x09 || r = 0x0A || r = 0x0B || r = 0x0C || r = 0x0D || r = 0x20 || r = 0x85 || r = 0xA0
    || r = 0x1680 || (0x2000 ≤ r && r ≤ 0x200A) || r = 0x2028 || r = 0x2029 || r = 0x202F
    || r = 0x205F || r = 0x3000

/-- The table `asciiSpace` of package `strings`. -/
def asciiSpace (c : Nat) : Bool :=
  c = 0x09 || c = 0x0A || c = 0x0B || c = 0x0C || c = 0x0D || c = 0x20

/-- Go `strings.TrimLeftFunc(s, unicode.IsSpace)`; `skip` counts the bytes of the current
space rune that are still to be dropped. -/
def TrimLeftSpace (skip : Nat) : Bytes → Bytes
  | [] => []
  | c :: t =>
    match skip with
    | k + 1 => TrimLeftSpace k t
    | 0 =>
      let d := DecodeRune (c :: t)
      if IsSpace d.1 then TrimLeftSpace (d.2 - 1) t else c :: t

/-- The loop of `lastIndexFunc(s, unicode.IsSpace, false)` of package `strings`: the index
at which the last non-space rune of `s[0:i]` starts, `none` for `-1`. The first argument
bounds the number of iterations and is at least `i`. -/
def lastIndexNonSpace (s : Bytes) : Nat → Nat → Option Nat
  | 0, _ => none
  | fuel + 1, i =>
    if i = 0 then none
    else
      let d := DecodeLastRune (s.take i)
      if IsSpace d.1 then lastIndexNonSpace s fuel (i - d.2) else some (i - d.2)

/-- Go `strings.TrimRightFunc(s, unicode.IsSpace)`. -/
def TrimRightSpace (s : Bytes) : Bytes :=
  match lastIndexNonSpace s s.length s.length with
  | none => []
  | some i =>
    if 0x80 ≤ s.getD i 0 then s.take (i + (DecodeRune (s.drop i)).2) else s.take (i + 1)

/-- The second loop of `strings.TrimSpace`, run on the reversed string `s[start:stop]`. -/
def trimSpaceStop : Bytes → Bytes
  | [] => []
  | c :: t =>
    if 0x80 ≤ c then TrimRightSpace (c :: t).reverse
    else if asciiSpace c then trimSpaceStop t
    else (c :: t).reverse

/-- Go `strings.TrimSpace`: an ASCII fast path from both ends that falls back to the
rune-wise `TrimFunc` / `TrimRightFunc` at the first non-ASCII byte. -/
def TrimSpace : Bytes → Bytes
  | [] => []
  | c :: t =>
    if 0x80 ≤ c then TrimRightSpace (TrimLeftSpace 0 (c :: t))
    else if asciiSpace c then TrimSpace t
    else trimSpaceStop (c :: t).reverse

/-- An ASCII decimal digit. -/
def isDigit (c : Nat) : Bool := 48 ≤ c && c ≤ 57

/-- The number a string of decimal digits denotes. -/
def digitsVal (ds : Bytes) : Nat := ds.foldl (fun n c => n * 10 + (c - 48)) 0

/-- Go `strconv.Atoi` for a 64 bit `int`: an optional sign followed by one or more decimal
digits, with a value in the range of `int`; every other string is an error. -/
def Atoi (s : Bytes) : Except Error Int :=
  let ds := if s.head? = some 45 ∨ s.head? = some 43 then s.tail else s
  if ds = [] ∨ ds.all isDigit = false then Except.error Error.NumError
  else
    let v : Int := if s.head? = some 45 then -(digitsVal ds : Int) else (digitsVal ds : Int)
    if -(2 ^ 63 : Int) ≤ v ∧ v < (2 ^ 63 : Int) then Except.ok v else Except.error Error.NumError

/-- The digits of the verb `%d` for a natural number, least significant digit first;
the first argument bounds the number of digits. -/
def decimalRev : Nat → Nat → Bytes
  | 0, _ => []
  | fuel + 1, n => if n < 10 then [48 + n] else (48 + n % 10) :: decimalRev fuel (n / 10)

/-- The output of the verb `%d` of package `fmt` for a non-negative integer. -/
def decimal (n : Nat) : Bytes := (decimalRev (n + 1) n).reverse

/-- The largest size the Go runtime accepts for an allocation on a 64 bit platform
(`maxAlloc`, 48 address bits): `make` panics for a length above it. An allocation within
the bound is taken to succeed. -/
def maxAlloc : Nat := 2 ^ 48

/-- Go `io.ReadFull(r, buf)` with `len(buf) = n`: the `n` bytes read, or the error of a
stream that ends early (`io.EOF` when it ends before the first byte, otherwise
`io.ErrUnexpectedEOF`), and the input that is left. -/
def ReadFull (n : Nat) (r : Bytes) : Except Error Bytes × Bytes :=
  if n ≤ r.length then (Except.ok (r.take n), r.drop n)
  else if r = [] then (Except.error Error.EOF, [])
  else (Except.error Error.ErrUnexpectedEOF, [])

/-! ## The frame codec (`readLSPMessage`, and the frames `run` writes) -/

/-- What a call of `readLSPMessage` does: it returns a body, returns an error (with a nil
body), or panics in `make([]byte, contentLength)`. The input left in the reader is kept
for the two returning cases. `outOfFuel` is the value of the bounded header loop when its
bound is used up; `readLSPMessage` never yields it. -/
inductive ReadResult
  | ok (body : Bytes) (rest : Bytes)
  | error (e : Error) (rest : Bytes)
  | panic
  | outOfFuel
  deriving DecidableEq, Repr

/-- The text `Content-Length:`. -/
def contentLengthKey : Bytes := ascii "Content-Length:"

/-- The line `\r\n`. -/
def crlf : Bytes := [13, 10]

/-- The statements of `readLSPMessage` after the header loop: allocate `contentLength`
bytes and fill them with `io.ReadFull`. For a length that `make` accepts the allocation
is taken to succeed; a process that cannot get the memory is aborted by the runtime, an
outcome that is left out here. -/
def readBody (contentLength : Int) (r : Bytes) : ReadResult :=
  if contentLength < 0 ∨ (maxAlloc : Int) < contentLength then ReadResult.panic
  else
    match ReadFull contentLength.toNat r with
    | (Except.ok buf, rest) => ReadResult.ok buf rest
    | (Except.error e, rest) => ReadResult.error e rest

/-- The header loop of `readLSPMessage`, with the value of `contentLength` so far. Every
iteration consumes at least one byte or returns, so a bound above the length of the
input is never used up. -/
def readHeaders : Nat → Int → Bytes → ReadResult
  | 0, _, _ => ReadResult.outOfFuel
  | fuel + 1, contentLength, r =>
    match ReadString 10 r with
    | (_, some e, rest) => ReadResult.error e rest
    | (line, none, rest) =>
      if line = crlf then readBody contentLength rest
      else if HasPrefix line contentLengthKey then
        match Atoi (TrimSpace (line.drop contentLengthKey.length)) with
        | Except.error e => ReadResult.error e rest
        | Except.ok length => readHeaders fuel length rest
      else readHeaders fuel contentLength rest

/-- Go `readLSPMessage(r)`. -/
def readLSPMessage (r : Bytes) : ReadResult := readHeaders (r.length + 1) 0 r

/-- The bytes written by `fmt.Fprintf(w, "Content-Length: %d\r\n\r\n%s", len(body), body)`,
and by the pair `fmt.Fprintf(w, "Content-Length: %d\r\n\r\n", len(body))`, `w.Write(body)`. -/
def frame (body : Bytes) : Bytes :=
  ascii "Content-Length: " ++ decimal body.length ++ ascii "\r\n\r\n" ++ body

/-- Successive calls of `readLSPMessage` on one reader: the bodies of `k` calls that all
return without an error, and the input left after the last one. -/
def readMany : Nat → Bytes → Option (List Bytes × Bytes)
  | 0, r => some ([], r)
  | k + 1, r =>
    match readLSPMessage r with
    | ReadResult.ok body rest =>
      match readMany k rest with
      | some (bodies, rest') => some (body :: bodies, rest')
      | none => none
    | _ => none

/-- The bytes written for a list of payloads, one frame after the other. -/
def frames : List Bytes → Bytes
  | [] => []
  | b :: bs => frame b ++ frames bs

/-- Value of a digit string given least significant digit first. -/
def valRev : Bytes → Nat
  | [] => 0
  | c :: t => (c - 48) + 10 * valRev t

/-! ## The envelope model (the types declared in `main.go`) -/

/-- Go `Position`. -/
structure Position where
  Line : Int
  Character : Int
  deriving DecidableEq, Repr

/-- Go `Range`. -/
structure Range where
  Start : Position
  End : Position
  deriving DecidableEq, Repr

/-- Go `jdtResult`: one location of a definition result as the server reports it. -/
structure jdtResult where
  URI : Bytes
  Range : Range
  deriving DecidableEq, Repr

/-- Go `stdResult`: one location as it is sent to the client. -/
structure stdResult where
  TargetURI : Bytes
  TargetRange : Range
  TargetSelectionRange : Range
  deriving DecidableEq, Repr

/-- Go `stdResponse`. -/
structure stdResponse where
  Jsonrpc : Bytes
  ID : Int
  Result : List stdResult
  deriving DecidableEq, Repr

/-- Go `TextDocument`. -/
structure TextDocument where
  URI : Bytes
  deriving DecidableEq, Repr

/-- Go `Params`. -/
structure Params where
  Position : Position
  TextDocument : TextDocument
  deriving DecidableEq, Repr

/-- Go `stdRequest`; `ID` is a `json.RawMessage`, the text of the member as received. -/
structure stdRequest where
  Jsonrpc : Bytes
  Method : Bytes
  Params : Params
  ID : Bytes
  deriving DecidableEq, Repr

/-- A finite `float64` value, `mant * 2 ^ exp`; an integer `n` is `n * 2 ^ 0`. -/
structure Float64 where
  mant : Int
  exp : Int
  deriving DecidableEq, Repr

/-- The dynamic value of the field `ID interface{}` after decoding: `nil` (member absent
or `null`), a `float64` (every JSON number), a `string`, a `bool`, or a slice or map (a
JSON array or object, whose contents no code looks at). -/
inductive Iface
  | nil
  | float64 (v : Float64)
  | string (s : Bytes)
  | bool (b : Bool)
  | composite
  deriving DecidableEq, Repr

/-- Go `jdtResponse`; `Result` is a `json.RawMessage`. -/
structure jdtResponse where
  Jsonrpc : Bytes
  ID : Iface
  Result : Bytes
  deriving DecidableEq, Repr

/-- Go `url.Userinfo`. -/
structure Userinfo where
  username : Bytes
  password : Bytes
  passwordSet : Bool
  deriving DecidableEq, Repr

/-- Go `url.URL`. -/
structure URL where
  Scheme : Bytes
  Opaque : Bytes
  User : Option Userinfo
  Host : Bytes
  Path : Bytes
  RawPath : Bytes
  OmitHost : Bool
  ForceQuery : Bool
  RawQuery : Bytes
  Fragment : Bytes
  RawFragment : Bytes
  deriving DecidableEq, Repr

/-- The value of `classReq["params"]`, a map with the one key `uri`. -/
structure classParams where
  uri : Bytes
  deriving DecidableEq, Repr

/-- The map `classReq` that `run` builds for the injected request, with its four keys. -/
structure classReq where
  id : Int
  jsonrpc : Bytes
  method : Bytes
  params : classParams
  deriving DecidableEq, Repr

/-- The functions of the Go standard library that `run` calls on message contents. The
pipelines are defined over an arbitrary implementation of them, so that what is proved of
the pipelines does not depend on how these functions are modelled; `golib` below is a
concrete model of them.

* `UnmarshalJdtResponse body` is the pointer `jdtResp` after
  `json.Unmarshal(body, &jdtResp)`: `none` is the nil pointer the variable starts with and
  keeps on a syntax error or for the JSON value `null`.
* `UnmarshalStdRequest body` is likewise the pointer `stdReq`.
* `UnmarshalDefinitionResult raw` is the slice after
  `json.Unmarshal(raw, &definitionResult)`, `none` when the call returns an error.
* `MarshalStdRequest` is the first result of `json.Marshal(stdReq)` (nil on an error, which
  `run` discards); `MarshalClassReq` that of `json.Marshal(classReq)`.
* `MarshalStdResponse` is `json.Marshal(stdResp)`, `none` when it returns an error.
* `Parse` is `url.Parse`, `none` when it returns an error and a nil `*URL`.
* `URLString` is the method `String` of `*url.URL`.
* `Unquote` is `strconv.Unquote`, `none` when it returns an error and the empty string.
* `Dir` is `filepath.Dir`. -/
structure Library where
  UnmarshalJdtResponse : Bytes → Option jdtResponse
  UnmarshalStdRequest : Bytes → Option stdRequest
  UnmarshalDefinitionResult : Bytes → Option (List jdtResult)
  MarshalStdRequest : stdRequest → Bytes
  MarshalClassReq : classReq → Bytes
  MarshalStdResponse : stdResponse → Option Bytes
  Parse : Bytes → Option URL
  URLString : URL → Bytes
  Unquote : Bytes → Option Bytes
  Dir : Bytes → Bytes

/-! ## Integers -/

/-- The value of a 64 bit two's complement integer computed without a bound. -/
def wrap64 (n : Int) : Int := (n + 2 ^ 63) % 2 ^ 64 - 2 ^ 63

/-- The Go conversion `int(v)` of a finite `float64`: the fraction is discarded (truncation
towards zero). For a value outside the range of `int` the language leaves the result to
the implementation; the value given is that of amd64, the smallest `int`. -/
def intOfFloat64 (v : Float64) : Int :=
  let t : Int := if 0 ≤ v.exp then v.mant * 2 ^ v.exp.toNat else Int.tdiv v.mant (2 ^ (-v.exp).toNat)
  if -(2 ^ 63 : Int) ≤ t ∧ t < (2 ^ 63 : Int) then t else -(2 ^ 63 : Int)

/-- Go `getID(id)`. -/
def getID (id : Iface) : Int × Bool :=
  match id with
  | Iface.float64 v => (intOfFloat64 v, true)
  | Iface.string v =>
    match Atoi v with
    | Except.ok n => (n, true)
    | Except.error _ => (0, false)
  | _ => (0, false)

/-! ## Tables (`m` and `pending`) -/

/-- A Go map as an association list: a key is bound to the value of its first entry. -/
abbrev Table (κ ν : Type) := List (κ × ν)

/-- The map read `v, ok := t[k]`. -/
def Table.get {κ ν : Type} [DecidableEq κ] (k : κ) : Table κ ν → Option ν
  | [] => none
  | (k', v) :: t => if k' = k then some v else Table.get k t

/-- The map write `t[k] = v`: the entry of `k` is replaced where it stands, or added. -/
def Table.set {κ ν : Type} [DecidableEq κ] (k : κ) (v : ν) : Table κ ν → Table κ ν
  | [] => [(k, v)]
  | (k', v') :: t => if k' = k then (k, v) :: t else (k', v') :: Table.set k v t

/-- Go `delete(t, k)`. -/
def Table.delete {κ ν : Type} [DecidableEq κ] (k : κ) : Table κ ν → Table κ ν
  | [] => []
  | (k', v') :: t => if k' = k then Table.delete k t else (k', v') :: Table.delete k t

/-! ## The two pipelines of `run` -/

/-- The variables captured by the function literal stored in `pending[newID]`: the id of
the intercepted response, the first location of its result, and the parsed URI. (The
literal also refers to the table `m`, which it reads and writes in place.) -/
structure Closure where
  id : Int
  location : jdtResult
  uri : URL
  deriving DecidableEq, Repr

/-- The shared state of the pipelines: the URI rewrite table `m` (local file URI to the
URI the server uses) and the table `pending` of continuations. -/
structure State where
  m : Table Bytes Bytes
  pending : Table Int Closure
  deriving DecidableEq, Repr

/-- A call of `os.MkdirAll` or `os.WriteFile`, with its arguments. -/
inductive FileOp
  | MkdirAll (path : Bytes) (perm : Nat)
  | WriteFile (name : Bytes) (data : Bytes) (perm : Nat)
  deriving DecidableEq, Repr

/-- What a piece of code writes: the bytes sent to the client (`os.Stdout`), the bytes
sent to the server (`serverStdin`), and the file system calls made, each in order. -/
structure Output where
  stdout : Bytes
  serverStdin : Bytes
  files : List FileOp
  deriving DecidableEq, Repr

/-- Nothing written. -/
def Output.none : Output := { stdout := [], serverStdin := [], files := [] }

/-- The writes of `a` followed by those of `b`. -/
def Output.append (a b : Output) : Output :=
  { stdout := a.stdout ++ b.stdout
    serverStdin := a.serverStdin ++ b.serverStdin
    files := a.files ++ b.files }

/-- How an iteration of a pipeline ends: it completes with a new state and its writes, or
the goroutine panics (which ends the process) before it has written anything. -/
inductive Outcome
  | done (s : State) (out : Output)
  | panic
  deriving DecidableEq, Repr

/-- Go `strings.ReplaceAll(s, old, new)` for a non-empty `old`: the occurrences of `old`
are replaced from left to right, without overlap. `skip` counts the bytes of a replaced
occurrence that are still to be dropped. -/
def ReplaceAll (old new : Bytes) (skip : Nat) : Bytes → Bytes
  | [] => []
  | c :: t =>
    match skip with
    | k + 1 => ReplaceAll old new k t
    | 0 =>
      if old.isPrefixOf (c :: t) then new ++ ReplaceAll old new (old.length - 1) t
      else c :: ReplaceAll old new 0 t

/-- The local variable `tmpFileName` of the continuation. -/
def tmpFileName (uri : URL) : Bytes :=
  ascii "/tmp" ++ TrimSuffix uri.Path (ascii ".class") ++ ascii ".java"

/-- The local variable `targetURI` of the continuation. -/
def targetURI (uri : URL) : Bytes := ascii "file://" ++ tmpFileName uri

/-- The text written to the file: the unquoted result (empty when `strconv.Unquote` fails)
after the two calls of `strings.ReplaceAll`. -/
def fileContent (L : Library) (resp : jdtResponse) : Bytes :=
  let result := match L.Unquote resp.Result with
    | some s => s
    | none => []
  ReplaceAll (ascii "\\t") [9] 0 (ReplaceAll (ascii "\\n") [10] 0 result)

/-- The value `stdResp` that the continuation builds. -/
def rewrittenResponse (c : Closure) : stdResponse :=
  let targetRange : Range :=
    { Start := { Line := c.location.Range.Start.Line, Character := c.location.Range.Start.Character }
      End := { Line := c.location.Range.End.Line, Character := c.location.Range.End.Character } }
  { Jsonrpc := ascii "2.0"
    ID := c.id
    Result := [{ TargetURI := targetURI c.uri
                 TargetRange := targetRange
                 TargetSelectionRange := targetRange }] }

/-- The function literal stored in `pending[newID]`, applied to the response `resp`:
the new table `m` and the writes. -/
def callback (L : Library) (c : Closure) (m : Table Bytes Bytes) (resp : jdtResponse) :
    Table Bytes Bytes × Output :=
  (Table.set (targetURI c.uri) (L.URLString c.uri) m,
    { stdout := match L.MarshalStdResponse (rewrittenResponse c) with
        | some data => frame data
        | none => []
      serverStdin := []
      files := [FileOp.MkdirAll (L.Dir (tmpFileName c.uri)) 0o755,
                FileOp.WriteFile (tmpFileName c.uri) (fileContent L resp) 0o400] })

/-- The map `classReq` for the injected request with id `newID` for the URI `uri`. -/
def injectedRequest (newID : Int) (uri : Bytes) : classReq :=
  { id := newID
    jsonrpc := ascii "2.0"
    method := ascii "java/classFileContents"
    params := { uri := uri } }

/-- The frame forwarded unchanged to the client. -/
def forwardToClient (s : State) (body : Bytes) : Outcome :=
  Outcome.done s { stdout := frame body, serverStdin := [], files := [] }

/-- One iteration of the server-to-client loop of `run` after `readLSPMessage` has
returned `body`. -/
def serverStep (L : Library) (s : State) (body : Bytes) : Outcome :=
  match L.UnmarshalJdtResponse body with
  | none => Outcome.panic
  | some jdtResp =>
    if (getID jdtResp.ID).2 = false then forwardToClient s body
    else
      let id := (getID jdtResp.ID).1
      match Table.get id s.pending with
      | some cb =>
        let r := callback L cb s.m jdtResp
        Outcome.done { m := r.1, pending := Table.delete id s.pending } r.2
      | none =>
        if jdtResp.Result.length = 0 then forwardToClient s body
        else
          match L.UnmarshalDefinitionResult jdtResp.Result with
          | none => forwardToClient s body
          | some [] => forwardToClient s body
          | some (first :: _) =>
            match L.Parse first.URI with
            | none => Outcome.panic
            | some uri =>
              if uri.Scheme = ascii "jdt" then
                let newID := wrap64 (id + 1)
                Outcome.done
                  { m := s.m
                    pending := Table.set newID { id := id, location := first, uri := uri } s.pending }
                  { stdout := []
                    serverStdin := frame (L.MarshalClassReq (injectedRequest newID first.URI))
                    files := [] }
              else forwardToClient s body

/-- One iteration of the client-to-server loop of `run` after `readLSPMessage` has
returned `body`. -/
def clientStep (L : Library) (s : State) (body : Bytes) : Outcome :=
  match L.UnmarshalStdRequest body with
  | none => Outcome.panic
  | some stdReq =>
    match Table.get stdReq.Params.TextDocument.URI s.m with
    | some jdtURI =>
      Outcome.done s
        { stdout := []
          serverStdin := frame (L.MarshalStdRequest
            { stdReq with Params := { stdReq.Params with TextDocument := { URI := jdtURI } } })
          files := [] }
    | none => Outcome.done s { stdout := [], serverStdin := frame body, files := [] }

/-- The condition under which the server-to-client loop does not intercept a decoded
response `r`, given the table `pending`: the id is absent or cannot be resolved; or it is
resolved, no continuation is pending for it, and the result is empty, does not decode as
a list of locations, is an empty list, or has a first location whose URI parses with a
scheme other than `jdt`. -/
def NotIntercepted (L : Library) (pending : Table Int Closure) (r : jdtResponse) : Prop :=
  (getID r.ID).2 = false ∨
    ((getID r.ID).2 = true ∧ Table.get (getID r.ID).1 pending = none ∧
      (r.Result.length = 0 ∨ L.UnmarshalDefinitionResult r.Result = none ∨
        L.UnmarshalDefinitionResult r.Result = some [] ∨
        ∃ first rest uri, L.UnmarshalDefinitionResult r.Result = some (first :: rest) ∧
          L.Parse first.URI = some uri ∧ uri.Scheme ≠ ascii "jdt"))

/-- The condition under which the server-to-client loop intercepts a decoded response `r`:
the id is resolved, no continuation is pending for it, and the first location of the
result is `first`, whose URI parses to `uri` with the scheme `jdt`. -/
def Intercepted (L : Library) (pending : Table Int Closure) (r : jdtResponse)
    (first : jdtResult) (uri : URL) : Prop :=
  (getID r.ID).2 = true ∧ Table.get (getID r.ID).1 pending = none ∧ r.Result.length ≠ 0 ∧
    (∃ rest, L.UnmarshalDefinitionResult r.Result = some (first :: rest)) ∧
    L.Parse first.URI = some uri ∧ uri.Scheme = ascii "jdt"

/-- A frame arriving at the relay: from the client, or from the server. -/
inductive Event
  | client (body : Bytes)
  | server (body : Bytes)
  deriving DecidableEq, Repr

/-- The iteration that handles one arriving frame. -/
def step (L : Library) (s : State) : Event → Outcome
  | Event.client body => clientStep L s body
  | Event.server body => serverStep L s body

/-- The iterations that handle a sequence of arriving frames, in the order of arrival; a
panic ends the run. -/
def run (L : Library) (s : State) : List Event → Outcome
  | [] => Outcome.done s Output.none
  | e :: es =>
    match step L s e with
    | Outcome.panic => Outcome.panic
    | Outcome.done s1 o1 =>
      match run L s1 es with
      | Outcome.panic => Outcome.panic
      | Outcome.done s2 o2 => Outcome.done s2 (o1.append o2)

/-- The state `run` starts with: both tables empty. -/
def State.init : State := { m := [], pending := [] }

/-! ## A model of `encoding/json`

The syntax check follows the scanner of package `encoding/json` (`scanner.go`), a
pushdown automaton that reads one byte at a time. -/

/-- The states of the scanner (its field `step`). `InStringEscU k` expects `k` more
hexadecimal digits; `Lit rest` expects the remaining bytes of `true`, `false` or `null`. -/
inductive ScanState
  | BeginValueOrEmpty
  | BeginValue
  | BeginStringOrEmpty
  | BeginString
  | EndValue
  | EndTop
  | InString
  | InStringEsc
  | InStringEscU (k : Nat)
  | Neg
  | S1
  | S0
  | Dot
  | Dot0
  | E
  | ESign
  | E0
  | Lit (rest : Bytes)
  deriving DecidableEq, Repr

/-- The entries of the scanner's stack `parseState`. -/
inductive ParseState
  | ObjectKey
  | ObjectValue
  | ArrayValue
  deriving DecidableEq, Repr

/-- The scanner: its state and its stack, innermost composite value first. -/
structure Scanner where
  step : ScanState
  parseState : List ParseState
  deriving DecidableEq, Repr

/-- The constant `maxNestingDepth` of package `encoding/json`. -/
def maxNestingDepth : Nat := 10000

/-- The scanner's `isSpace`. -/
def jsonSpace (c : Nat) : Bool := c = 32 || c = 9 || c = 13 || c = 10

/-- A hexadecimal digit. -/
def isHex (c : Nat) : Bool := (48 ≤ c && c ≤ 57) || (97 ≤ c && c ≤ 102) || (65 ≤ c && c ≤ 70)

/-- The scanner's `stateEndValue`; `none` is `scanError`. -/
def stateEndValue (ps : List ParseState) (c : Nat) : Option Scanner :=
  match ps with
  | [] => if jsonSpace c then some ⟨ScanState.EndTop, []⟩ else none
  | ParseState.ObjectKey :: rest =>
    if jsonSpace c then some ⟨ScanState.EndValue, ps⟩
    else if c = 58 then some ⟨ScanState.BeginValue, ParseState.ObjectValue :: rest⟩
    else none
  | ParseState.ObjectValue :: rest =>
    if jsonSpace c then some ⟨ScanState.EndValue, ps⟩
    else if c = 44 then some ⟨ScanState.BeginString, ParseState.ObjectKey :: rest⟩
    else if c = 125 then
      some ⟨if rest = [] then ScanState.EndTop else ScanState.EndValue, rest⟩
    else none
  | ParseState.ArrayValue :: rest =>
    if jsonSpace c then some ⟨ScanState.EndValue, ps⟩
    else if c = 44 then some ⟨ScanState.BeginValue, ps⟩
    else if c = 93 then
      some ⟨if rest = [] then ScanState.EndTop else ScanState.EndValue, rest⟩
    else none

/-- The scanner's `stateBeginValue`. -/
def stateBeginValue (ps : List ParseState) (c : Nat) : Option Scanner :=
  if jsonSpace c then some ⟨ScanState.BeginValue, ps⟩
  else if c = 123 then
    if ps.length + 1 ≤ maxNestingDepth then
      some ⟨ScanState.BeginStringOrEmpty, ParseState.ObjectKey :: ps⟩
    else none
  else if c = 91 then
    if ps.length + 1 ≤ maxNestingDepth then
      some ⟨ScanState.BeginValueOrEmpty, ParseState.ArrayValue :: ps⟩
    else none
  else if c = 34 then some ⟨ScanState.InString, ps⟩
  else if c = 45 then some ⟨ScanState.Neg, ps⟩
  else if c = 48 then some ⟨ScanState.S0, ps⟩
  else if c = 116 then some ⟨ScanState.Lit [114, 117, 101], ps⟩
  else if c = 102 then some ⟨ScanState.Lit [97, 108, 115, 101], ps⟩
  else if c = 110 then some ⟨ScanState.Lit [117, 108, 108], ps⟩
  else if 49 ≤ c ∧ c ≤ 57 then some ⟨ScanState.S1, ps⟩
  else none

/-- The scanner's `state0`, also the tail of `state1`. -/
def state0 (ps : List ParseState) (c : Nat) : Option Scanner :=
  if c = 46 then some ⟨ScanState.Dot, ps⟩
  else if c = 101 ∨ c = 69 then some ⟨ScanState.E, ps⟩
  else stateEndValue ps c

/-- One call `s.step(s, c)` of the scanner; `none` is `scanError`. -/
def Scanner.next (s : Scanner) (c : Nat) : Option Scanner :=
  match s.step with
  | ScanState.BeginValueOrEmpty =>
    if jsonSpace c then some s
    else if c = 93 then stateEndValue s.parseState c
    else stateBeginValue s.parseState c
  | ScanState.BeginValue => stateBeginValue s.parseState c
  | ScanState.BeginStringOrEmpty =>
    if jsonSpace c then some s
    else if c = 125 then stateEndValue (ParseState.ObjectValue :: s.parseState.tail) c
    else if c = 34 then some ⟨ScanState.InString, s.parseState⟩
    else none
  | ScanState.BeginString =>
    if jsonSpace c then some s
    else if c = 34 then some ⟨ScanState.InString, s.parseState⟩
    else none
  | ScanState.EndValue => stateEndValue s.parseState c
  | ScanState.EndTop => if jsonSpace c then some s else none
  | ScanState.InString =>
    if c = 34 then some ⟨ScanState.EndValue, s.parseState⟩
    else if c = 92 then some ⟨ScanState.InStringEsc, s.parseState⟩
    else if c < 32 then none
    else some s
  | ScanState.InStringEsc =>
    if c = 98 ∨ c = 102 ∨ c = 110 ∨ c = 114 ∨ c = 116 ∨ c = 92 ∨ c = 47 ∨ c = 34 then
      some ⟨ScanState.InString, s.parseState⟩
    else if c = 117 then some ⟨ScanState.InStringEscU 4, s.parseState⟩
    else none
  | ScanState.InStringEscU k =>
    if isHex c then
      some ⟨if k ≤ 1 then ScanState.InString else ScanState.InStringEscU (k - 1), s.parseState⟩
    else none
  | ScanState.Neg =>
    if c = 48 then some ⟨ScanState.S0, s.parseState⟩
    else if 49 ≤ c ∧ c ≤ 57 then some ⟨ScanState.S1, s.parseState⟩
    else none
  | ScanState.S1 => if isDigit c then some s else state0 s.parseState c
  | ScanState.S0 => state0 s.parseState c
  | ScanState.Dot => if isDigit c then some ⟨ScanState.Dot0, s.parseState⟩ else none
  | ScanState.Dot0 =>
    if isDigit c then some s
    else if c = 101 ∨ c = 69 then some ⟨ScanState.E, s.parseState⟩
    else stateEndValue s.parseState c
  | ScanState.E =>
    if c = 43 ∨ c = 45 then some ⟨ScanState.ESign, s.parseState⟩
    else if isDigit c then some ⟨ScanState.E0, s.parseState⟩
    else none
  | ScanState.ESign => if isDigit c then some ⟨ScanState.E0, s.parseState⟩ else none
  | ScanState.E0 => if isDigit c then some s else stateEndValue s.parseState c
  | ScanState.Lit rest =>
    match rest with
    | [] => none
    | [x] => if c = x then some ⟨ScanState.EndValue, s.parseState⟩ else none
    | x :: more => if c = x then some ⟨ScanState.Lit more, s.parseState⟩ else none

/-- The loop of `checkValid`: the scanner after all bytes, `none` on a `scanError`. -/
def scanAll (s : Scanner) : Bytes → Option Scanner
  | [] => some s
  | c :: t =>
    match s.next c with
    | none => none
    | some s1 => scanAll s1 t

/-- The function `checkValid` of package `encoding/json`: whether the data is exactly one
JSON value, with optional white space around it. -/
def checkValid (data : Bytes) : Bool :=
  match scanAll ⟨ScanState.BeginValue, []⟩ data with
  | none => false
  | some s =>
    if s.step = ScanState.EndTop then true
    else
      match s.next 32 with
      | some s1 => s1.step = ScanState.EndTop
      | none => false

/-! ### Cutting a valid text into the texts of its parts -/

/-- Drop leading JSON white space. -/
def skipSpace : Bytes → Bytes
  | [] => []
  | c :: t => if jsonSpace c then skipSpace t else c :: t

/-- The bytes up to the end of the string, array or object that is open: `depth` counts
the open brackets, `inStr` and `esc` say whether the position is inside a string and
after a backslash. The result is the text consumed and the text left. -/
def scanComposite : Nat → Bool → Bool → Bytes → Bytes × Bytes
  | _, _, _, [] => ([], [])
  | depth, inStr, esc, c :: t =>
    if inStr then
      if esc then
        let r := scanComposite depth true false t
        (c :: r.1, r.2)
      else if c = 92 then
        let r := scanComposite depth true true t
        (c :: r.1, r.2)
      else if c = 34 then
        if depth = 0 then ([c], t)
        else
          let r := scanComposite depth false false t
          (c :: r.1, r.2)
      else
        let r := scanComposite depth true false t
        (c :: r.1, r.2)
    else if c = 34 then
      let r := scanComposite depth true false t
      (c :: r.1, r.2)
    else if c = 123 ∨ c = 91 then
      let r := scanComposite (depth + 1) false false t
      (c :: r.1, r.2)
    else if c = 125 ∨ c = 93 then
      if depth ≤ 1 then ([c], t)
      else
        let r := scanComposite (depth - 1) false false t
        (c :: r.1, r.2)
    else
      let r := scanComposite depth false false t
      (c :: r.1, r.2)

/-- The bytes of a number or of `true`, `false`, `null`: up to the next white space,
comma or closing bracket. -/
def scanLiteral : Bytes → Bytes × Bytes
  | [] => ([], [])
  | c :: t =>
    if jsonSpace c ∨ c = 44 ∨ c = 125 ∨ c = 93 then ([], c :: t)
    else
      let r := scanLiteral t
      (c :: r.1, r.2)

/-- The text of the value that starts at the first byte, and the text after it. -/
def scanValue : Bytes → Bytes × Bytes
  | [] => ([], [])
  | c :: t =>
    if c = 34 then
      let r := scanComposite 0 true false t
      (c :: r.1, r.2)
    else if c = 123 ∨ c = 91 then
      let r := scanComposite 1 false false t
      (c :: r.1, r.2)
    else scanLiteral (c :: t)

/-- The members of an object, given the text after its opening brace: the text of each
key (a string literal) with the text of its value. The first argument bounds the number
of members and is at least the length of the text. -/
def objectMembers : Nat → Bytes → List (Bytes × Bytes)
  | 0, _ => []
  | fuel + 1, s =>
    match skipSpace s with
    | 34 :: t =>
      let k := scanValue (34 :: t)
      match skipSpace k.2 with
      | 58 :: t1 =>
        let v := scanValue (skipSpace t1)
        match skipSpace v.2 with
        | 44 :: t2 => (k.1, v.1) :: objectMembers fuel t2
        | _ => [(k.1, v.1)]
      | _ => []
    | _ => []

/-- The elements of an array, given the text after its opening bracket. -/
def arrayElements : Nat → Bytes → List Bytes
  | 0, _ => []
  | fuel + 1, s =>
    match skipSpace s with
    | [] => []
    | 93 :: _ => []
    | c :: t =>
      let v := scanValue (c :: t)
      match skipSpace v.2 with
      | 44 :: t2 => v.1 :: arrayElements fuel t2
      | _ => [v.1]

/-- The members of the object whose text is given (starting at its opening brace). -/
def membersOf (raw : Bytes) : List (Bytes × Bytes) := objectMembers raw.length raw.tail

/-- The elements of the array whose text is given (starting at its opening bracket). -/
def elementsOf (raw : Bytes) : List Bytes := arrayElements raw.length raw.tail

/-! ### Strings -/

/-- Go `utf8.EncodeRune` / `utf8.AppendRune`; a surrogate or a value above U+10FFFF is
encoded as U+FFFD. -/
def EncodeRune (r : Nat) : Bytes :=
  if r < 0x80 then [r]
  else if r < 0x800 then [0xC0 + r / 64, 0x80 + r % 64]
  else if (0xD800 ≤ r ∧ r ≤ 0xDFFF) ∨ 0x10FFFF < r then [0xEF, 0xBF, 0xBD]
  else if r < 0x10000 then [0xE0 + r / 4096, 0x80 + r / 64 % 64, 0x80 + r % 64]
  else [0xF0 + r / 262144, 0x80 + r / 4096 % 64, 0x80 + r / 64 % 64, 0x80 + r % 64]

/-- The value of a hexadecimal digit. -/
def hexVal (c : Nat) : Nat :=
  if 48 ≤ c ∧ c ≤ 57 then c - 48
  else if 97 ≤ c ∧ c ≤ 102 then c - 87
  else if 65 ≤ c ∧ c ≤ 70 then c - 55
  else 0

/-- The function `getu4` of package `encoding/json`: the code unit of an escape
`\uXXXX` at the start of the text. -/
def getu4 : Bytes → Option Nat
  | 92 :: 117 :: a :: b :: c :: d :: _ =>
    if isHex a ∧ isHex b ∧ isHex c ∧ isHex d then
      some (hexVal a * 4096 + hexVal b * 256 + hexVal c * 16 + hexVal d)
    else none
  | _ => none

/-- The loop of `unquoteBytes` of package `encoding/json` over the inside of a string
literal; `skip` counts the bytes already consumed by the current rune or escape. The
inside of a literal that passed `checkValid` is always decoded. -/
def unquoteLoop (skip : Nat) : Bytes → Bytes
  | [] => []
  | c :: t =>
    match skip with
    | k + 1 => unquoteLoop k t
    | 0 =>
      if c = 92 then
        match t with
        | [] => []
        | e :: _ =>
          if e = 117 then
            match getu4 (c :: t) with
            | none => []
            | some rr =>
              if 0xD800 ≤ rr ∧ rr < 0xE000 then
                match getu4 (t.drop 5) with
                | some rr1 =>
                  if rr < 0xDC00 ∧ 0xDC00 ≤ rr1 ∧ rr1 < 0xE000 then
                    EncodeRune ((rr - 0xD800) * 1024 + (rr1 - 0xDC00) + 0x10000)
                      ++ unquoteLoop 11 t
                  else EncodeRune RuneError ++ unquoteLoop 5 t
                | none => EncodeRune RuneError ++ unquoteLoop 5 t
              else EncodeRune rr ++ unquoteLoop 5 t
          else
            (if e = 98 then 8 else if e = 102 then 12 else if e = 110 then 10
              else if e = 114 then 13 else if e = 116 then 9 else e) :: unquoteLoop 1 t
      else if c < 0x80 then c :: unquoteLoop 0 t
      else
        let d := DecodeRune (c :: t)
        EncodeRune d.1 ++ unquoteLoop (d.2 - 1) t

/-- The function `unquote` of package `encoding/json` on the text of a string literal,
quotes included. -/
def jsonUnquote (raw : Bytes) : Bytes := unquoteLoop 0 (raw.tail.take (raw.length - 2))

/-! ### Numbers -/

/-- The sign, the digits (integer and fraction part together) and the decimal exponent of
a JSON number: the number is `± digits * 10 ^ exponent`. -/
structure Decimal where
  neg : Bool
  digits : Nat
  exponent : Int
  deriving DecidableEq, Repr

/-- The leading decimal digits of a text, and the rest. -/
def spanDigits : Bytes → Bytes × Bytes
  | [] => ([], [])
  | c :: t =>
    if isDigit c then
      let r := spanDigits t
      (c :: r.1, r.2)
    else ([], c :: t)

/-- Reads a text that has the syntax of a JSON number. -/
def readDecimal (lit : Bytes) : Decimal :=
  let neg := lit.head? = some 45
  let ip := spanDigits (if neg then lit.tail else lit)
  let fp := match ip.2 with
    | 46 :: t => spanDigits t
    | r => ([], r)
  let ex : Int := match fp.2 with
    | _ :: 45 :: t => -((digitsVal (spanDigits t).1 : Nat) : Int)
    | _ :: 43 :: t => ((digitsVal (spanDigits t).1 : Nat) : Int)
    | _ :: t => ((digitsVal (spanDigits t).1 : Nat) : Int)
    | [] => 0
  { neg := neg, digits := digitsVal (ip.1 ++ fp.1), exponent := ex - (fp.1.length : Int) }

/-- The quotient `a / b` rounded to the nearest integer, a tie to the even one. -/
def divRoundEven (a b : Nat) : Nat :=
  let q := a / b
  let r := a % b
  if 2 * r < b then q else if b < 2 * r then q + 1 else if q % 2 = 0 then q else q + 1

/-- The position of the highest set bit of a positive number; the first argument bounds
the number of halvings and is at least the number. -/
def log2 : Nat → Nat → Nat
  | 0, _ => 0
  | fuel + 1, n => if n < 2 then 0 else log2 fuel (n / 2) + 1

/-- The `float64` nearest to `p / q` (for positive `p` and `q`), as a mantissa of at most
`2 ^ 53` and a binary exponent that is at least `-1074`; `none` when the rounded quotient
is `2 ^ 1024` or more, beyond the largest `float64` (the result of `strconv.ParseFloat` is
then an infinity and a range error). -/
def nearestFloat64 (p q : Nat) : Option (Nat × Int) :=
  let e0 : Int := (log2 p p : Int) - (log2 q q : Int)
  let ge (e : Int) : Bool := if 0 ≤ e then q * 2 ^ e.toNat ≤ p else q ≤ p * 2 ^ (-e).toNat
  let e : Int := if ge e0 then e0 else e0 - 1
  let u : Int := max (e - 52) (-1074)
  let m : Nat := if 0 ≤ u then divRoundEven p (q * 2 ^ u.toNat) else divRoundEven (p * 2 ^ (-u).toNat) q
  if 971 < u ∨ (u = 971 ∧ 2 ^ 53 ≤ m) then none else some (m, u)

/-- The representation of `m * 2 ^ u` in which equal values have equal representations: the
exponent is zero for an integer, and otherwise negative with an odd mantissa. The first
argument bounds the number of factors two moved from the mantissa to the exponent. -/
def canonical : Nat → Nat → Int → Nat × Int
  | 0, m, u => (m, u)
  | fuel + 1, m, u =>
    if m = 0 then (0, 0)
    else if 0 ≤ u then (m * 2 ^ u.toNat, 0)
    else if m % 2 = 0 then canonical fuel (m / 2) (u + 1)
    else (m, u)

/-- Go `strconv.ParseFloat(lit, 64)` on a text with the syntax of a JSON number: the
nearest `float64`, `none` for a range error. -/
def ParseFloat (lit : Bytes) : Option Float64 :=
  let d := readDecimal lit
  if d.digits = 0 then some { mant := 0, exp := 0 }
  else
    let r := if 0 ≤ d.exponent then nearestFloat64 (d.digits * 10 ^ d.exponent.toNat) 1
      else nearestFloat64 d.digits (10 ^ (-d.exponent).toNat)
    match r with
    | none => none
    | some (m, u) =>
      let n := canonical 64 m u
      some { mant := if d.neg then -(n.1 : Int) else (n.1 : Int), exp := n.2 }

/-! ### Decoding into the types of `main.go` -/

/-- The name of a struct field or an object key as `encoding/json` compares them when no
field has exactly the key as its name: letters `a` to `z` become capitals, and so do the
two runes outside ASCII whose case folding is an ASCII letter, U+017F (folded to `S`) and
U+212A (folded to `K`). Other runes are left as they are, which makes no difference for
the comparison with the ASCII field names of `main.go`. -/
def foldName : Bytes → Bytes
  | [] => []
  | 0xC5 :: 0xBF :: t => 83 :: foldName t
  | 0xE2 :: 0x84 :: 0xAA :: t => 75 :: foldName t
  | c :: t => (if 97 ≤ c ∧ c ≤ 122 then c - 32 else c) :: foldName t

/-- Whether the object key with the given text selects the field with the JSON name
`name`. -/
def keyIs (keyRaw : Bytes) (name : String) : Bool :=
  foldName (jsonUnquote keyRaw) = foldName (ascii name)

/-- Decoding a value into a field of type `string`: the new value of the field and
whether no error was recorded. `null` leaves the field as it is; a value that is not a
string is an `UnmarshalTypeError`. -/
def decodeString (old : Bytes) (raw : Bytes) : Bytes × Bool :=
  match raw with
  | 34 :: _ => (jsonUnquote raw, true)
  | 110 :: _ => (old, true)
  | _ => (old, false)

/-- Decoding a value into a field of type `int64`: a number is read by
`strconv.ParseInt(s, 10, 64)`, whose failure (a fraction, an exponent, a value out of
range) is an `UnmarshalTypeError`. -/
def decodeInt64 (old : Int) (raw : Bytes) : Int × Bool :=
  match raw with
  | 110 :: _ => (old, true)
  | 34 :: _ => (old, false)
  | 123 :: _ => (old, false)
  | 91 :: _ => (old, false)
  | 116 :: _ => (old, false)
  | 102 :: _ => (old, false)
  | _ =>
    match Atoi raw with
    | Except.ok n => (n, true)
    | Except.error _ => (old, false)

/-- Decoding a value into a field of type `interface{}`. -/
def decodeIface (old : Iface) (raw : Bytes) : Iface :=
  match raw with
  | 110 :: _ => Iface.nil
  | 116 :: _ => Iface.bool true
  | 102 :: _ => Iface.bool false
  | 34 :: _ => Iface.string (jsonUnquote raw)
  | 123 :: _ => Iface.composite
  | 91 :: _ => Iface.composite
  | _ =>
    match ParseFloat raw with
    | some v => Iface.float64 v
    | none => old

/-- Decoding the members of an object into a `Position`, in the order of the text. -/
def decodePositionMembers (old : Position) : List (Bytes × Bytes) → Position × Bool
  | [] => (old, true)
  | (k, v) :: rest =>
    if keyIs k "line" then
      let r := decodeInt64 old.Line v
      let r2 := decodePositionMembers { old with Line := r.1 } rest
      (r2.1, r.2 && r2.2)
    else if keyIs k "character" then
      let r := decodeInt64 old.Character v
      let r2 := decodePositionMembers { old with Character := r.1 } rest
      (r2.1, r.2 && r2.2)
    else decodePositionMembers old rest

/-- Decoding a value into a `Position`. -/
def decodePosition (old : Position) (raw : Bytes) : Position × Bool :=
  match raw with
  | 123 :: _ => decodePositionMembers old (membersOf raw)
  | 110 :: _ => (old, true)
  | _ => (old, false)

/-- Decoding the members of an object into a `Range`. -/
def decodeRangeMembers (old : Range) : List (Bytes × Bytes) → Range × Bool
  | [] => (old, true)
  | (k, v) :: rest =>
    if keyIs k "start" then
      let r := decodePosition old.Start v
      let r2 := decodeRangeMembers { old with Start := r.1 } rest
      (r2.1, r.2 && r2.2)
    else if keyIs k "end" then
      let r := decodePosition old.End v
      let r2 := decodeRangeMembers { old with End := r.1 } rest
      (r2.1, r.2 && r2.2)
    else decodeRangeMembers old rest

/-- Decoding a value into a `Range`. -/
def decodeRange (old : Range) (raw : Bytes) : Range × Bool :=
  match raw with
  | 123 :: _ => decodeRangeMembers old (membersOf raw)
  | 110 :: _ => (old, true)
  | _ => (old, false)

/-- Decoding the members of an object into a `jdtResult`. -/
def decodeJdtResultMembers (old : jdtResult) : List (Bytes × Bytes) → jdtResult × Bool
  | [] => (old, true)
  | (k, v) :: rest =>
    if keyIs k "uri" then
      let r := decodeString old.URI v
      let r2 := decodeJdtResultMembers { old with URI := r.1 } rest
      (r2.1, r.2 && r2.2)
    else if keyIs k "range" then
      let r := decodeRange old.Range v
      let r2 := decodeJdtResultMembers { old with Range := r.1 } rest
      (r2.1, r.2 && r2.2)
    else decodeJdtResultMembers old rest

/-- The zero value of `Position`. -/
def Position.zero : Position := { Line := 0, Character := 0 }

/-- The zero value of `Range`. -/
def Range.zero : Range := { Start := Position.zero, End := Position.zero }

/-- The zero value of `jdtResult`. -/
def jdtResult.zero : jdtResult := { URI := [], Range := Range.zero }

/-- Decoding a value into a new element of a `[]jdtResult`. -/
def decodeJdtResult (raw : Bytes) : jdtResult × Bool :=
  match raw with
  | 123 :: _ => decodeJdtResultMembers jdtResult.zero (membersOf raw)
  | 110 :: _ => (jdtResult.zero, true)
  | _ => (jdtResult.zero, false)

/-- The text of the value of a valid JSON text, without the white space around it. -/
def valueText (data : Bytes) : Bytes := (scanValue (skipSpace data)).1

/-- The call `json.Unmarshal(data, &definitionResult)` for a nil `[]jdtResult`: the slice,
or `none` when the call returns an error (a syntax error, or a value of the wrong type
anywhere in the text). `null` gives the nil slice. -/
def jsonUnmarshalDefinitionResult (data : Bytes) : Option (List jdtResult) :=
  if checkValid data = false then none
  else
    match valueText data with
    | 110 :: _ => some []
    | 91 :: t =>
      let rs := (elementsOf (91 :: t)).map decodeJdtResult
      if rs.all (fun r => r.2) then some (rs.map (fun r => r.1)) else none
    | _ => none

/-- Decoding the members of an object into a `jdtResponse`. -/
def decodeJdtResponseMembers (old : jdtResponse) : List (Bytes × Bytes) → jdtResponse
  | [] => old
  | (k, v) :: rest =>
    if keyIs k "jsonrpc" then
      decodeJdtResponseMembers { old with Jsonrpc := (decodeString old.Jsonrpc v).1 } rest
    else if keyIs k "id" then
      decodeJdtResponseMembers { old with ID := decodeIface old.ID v } rest
    else if keyIs k "result" then
      decodeJdtResponseMembers { old with Result := v } rest
    else decodeJdtResponseMembers old rest

/-- The zero value of `jdtResponse`. -/
def jdtResponse.zero : jdtResponse := { Jsonrpc := [], ID := Iface.nil, Result := [] }

/-- The pointer `jdtResp` after `json.Unmarshal(data, &jdtResp)`, for a nil `jdtResp`: it
stays nil when the text is not valid JSON and when the value is `null`; for every other
value a `jdtResponse` is allocated, and filled from the members when the value is an
object. -/
def jsonUnmarshalJdtResponse (data : Bytes) : Option jdtResponse :=
  if checkValid data = false then none
  else
    match valueText data with
    | 110 :: _ => none
    | 123 :: t => some (decodeJdtResponseMembers jdtResponse.zero (membersOf (123 :: t)))
    | _ => some jdtResponse.zero

/-- Decoding the members of an object into a `TextDocument`. -/
def decodeTextDocumentMembers (old : TextDocument) : List (Bytes × Bytes) → TextDocument
  | [] => old
  | (k, v) :: rest =>
    if keyIs k "uri" then decodeTextDocumentMembers { URI := (decodeString old.URI v).1 } rest
    else decodeTextDocumentMembers old rest

/-- Decoding a value into a `TextDocument`. -/
def decodeTextDocument (old : TextDocument) (raw : Bytes) : TextDocument :=
  match raw with
  | 123 :: _ => decodeTextDocumentMembers old (membersOf raw)
  | _ => old

/-- Decoding the members of an object into a `Params`. -/
def decodeParamsMembers (old : Params) : List (Bytes × Bytes) → Params
  | [] => old
  | (k, v) :: rest =>
    if keyIs k "position" then
      decodeParamsMembers { old with Position := (decodePosition old.Position v).1 } rest
    else if keyIs k "textDocument" then
      decodeParamsMembers { old with TextDocument := decodeTextDocument old.TextDocument v } rest
    else decodeParamsMembers old rest

/-- Decoding a value into a `Params`. -/
def decodeParams (old : Params) (raw : Bytes) : Params :=
  match raw with
  | 123 :: _ => decodeParamsMembers old (membersOf raw)
  | _ => old

/-- Decoding the members of an object into a `stdRequest`. -/
def decodeStdRequestMembers (old : stdRequest) : List (Bytes × Bytes) → stdRequest
  | [] => old
  | (k, v) :: rest =>
    if keyIs k "jsonrpc" then
      decodeStdRequestMembers { old with Jsonrpc := (decodeString old.Jsonrpc v).1 } rest
    else if keyIs k "method" then
      decodeStdRequestMembers { old with Method := (decodeString old.Method v).1 } rest
    else if keyIs k "params" then
      decodeStdRequestMembers { old with Params := decodeParams old.Params v } rest
    else if keyIs k "id" then
      decodeStdRequestMembers { old with ID := v } rest
    else decodeStdRequestMembers old rest

/-- The zero value of `stdRequest`. -/
def stdRequest.zero : stdRequest :=
  { Jsonrpc := [], Method := [], Params := { Position := Position.zero, TextDocument := { URI := [] } },
    ID := [] }

/-- The pointer `stdReq` after `json.Unmarshal(data, &stdReq)`, for a nil `stdReq`. -/
def jsonUnmarshalStdRequest (data : Bytes) : Option stdRequest :=
  if checkValid data = false then none
  else
    match valueText data with
    | 110 :: _ => none
    | 123 :: t => some (decodeStdRequestMembers stdRequest.zero (membersOf (123 :: t)))
    | _ => some stdRequest.zero

/-! ### Encoding -/

/-- A lower case hexadecimal digit. -/
def hexDigit (n : Nat) : Nat := if n < 10 then 48 + n else 87 + n

/-- The loop of `appendString` of package `encoding/json` with HTML escaping, as
`json.Marshal` uses it (Go 1.22 and later, which write `\b` and `\f` in the short form).
`skip` counts the bytes of the current rune that are still to be passed over; they are
copied when `copy` is set and dropped otherwise (the rune was written as an escape). -/
def encodeStringLoop (skip : Nat) (copy : Bool) : Bytes → Bytes
  | [] => []
  | c :: t =>
    match skip with
    | k + 1 => if copy then c :: encodeStringLoop k copy t else encodeStringLoop k copy t
    | 0 =>
      if c < 0x80 then
        if c = 92 ∨ c = 34 then 92 :: c :: encodeStringLoop 0 true t
        else if c = 8 then 92 :: 98 :: encodeStringLoop 0 true t
        else if c = 12 then 92 :: 102 :: encodeStringLoop 0 true t
        else if c = 10 then 92 :: 110 :: encodeStringLoop 0 true t
        else if c = 13 then 92 :: 114 :: encodeStringLoop 0 true t
        else if c = 9 then 92 :: 116 :: encodeStringLoop 0 true t
        else if c < 32 ∨ c = 60 ∨ c = 62 ∨ c = 38 then
          92 :: 117 :: 48 :: 48 :: hexDigit (c / 16) :: hexDigit (c % 16)
            :: encodeStringLoop 0 true t
        else c :: encodeStringLoop 0 true t
      else
        let d := DecodeRune (c :: t)
        if d.1 = RuneError ∧ d.2 = 1 then ascii "\\ufffd" ++ encodeStringLoop 0 true t
        else if d.1 = 0x2028 ∨ d.1 = 0x2029 then
          ascii "\\u202" ++ hexDigit (d.1 % 16) :: encodeStringLoop 2 false t
        else c :: encodeStringLoop (d.2 - 1) true t

/-- The JSON text of a Go `string`. -/
def encodeString (s : Bytes) : Bytes := 34 :: (encodeStringLoop 0 true s ++ [34])

/-- The JSON text of an integer (the verb `%d`). -/
def encodeInt (n : Int) : Bytes :=
  if n < 0 then 45 :: decimal n.natAbs else decimal n.natAbs

/-- The JSON text of a `Position`. -/
def encodePosition (p : Position) : Bytes :=
  ascii "\x7b\"line\":" ++ encodeInt p.Line ++ ascii ",\"character\":" ++ encodeInt p.Character
    ++ ascii "\x7d"

/-- The JSON text of a `Range`. -/
def encodeRange (r : Range) : Bytes :=
  ascii "\x7b\"start\":" ++ encodePosition r.Start ++ ascii ",\"end\":" ++ encodePosition r.End
    ++ ascii "\x7d"

/-- The JSON text of a `stdResult`. -/
def encodeStdResult (r : stdResult) : Bytes :=
  ascii "\x7b\"targetUri\":" ++ encodeString r.TargetURI ++ ascii ",\"targetRange\":"
    ++ encodeRange r.TargetRange ++ ascii ",\"targetSelectionRange\":"
    ++ encodeRange r.TargetSelectionRange ++ ascii "\x7d"

/-- The texts of the elements of an array, separated by commas. -/
def joinComma : List Bytes → Bytes
  | [] => []
  | [x] => x
  | x :: y :: rest => x ++ 44 :: joinComma (y :: rest)

/-- The call `json.Marshal(stdResp)`; the encoding of these types cannot fail. The empty
list stands for the nil slice, which is written `null`. -/
def jsonMarshalStdResponse (r : stdResponse) : Option Bytes :=
  some (ascii "\x7b\"jsonrpc\":" ++ encodeString r.Jsonrpc ++ ascii ",\"id\":" ++ encodeInt r.ID
    ++ ascii ",\"result\":"
    ++ (if r.Result = [] then ascii "null"
        else 91 :: (joinComma (r.Result.map encodeStdResult) ++ [93]))
    ++ ascii "\x7d")

/-- The function `compact` of package `encoding/json` with HTML escaping, on a valid JSON
text: white space outside strings is dropped, and `<`, `>`, `&`, U+2028 and U+2029 are
written as escapes. `drop` counts the bytes of an escaped rune still to be dropped;
`inStr` and `esc` say whether the position is inside a string and after a backslash. -/
def compact (drop : Nat) (inStr esc : Bool) : Bytes → Bytes
  | [] => []
  | c :: t =>
    match drop with
    | k + 1 => compact k inStr esc t
    | 0 =>
      if c = 60 ∨ c = 62 ∨ c = 38 then
        92 :: 117 :: 48 :: 48 :: hexDigit (c / 16) :: hexDigit (c % 16) :: compact 0 inStr false t
      else if c = 0xE2 ∧ t.head? = some 0x80
          ∧ (t.tail.head? = some 0xA8 ∨ t.tail.head? = some 0xA9) then
        ascii "\\u202" ++ hexDigit (t.tail.headD 0 % 16) :: compact 2 inStr false t
      else if inStr then
        if esc then c :: compact 0 true false t
        else if c = 92 then c :: compact 0 true true t
        else if c = 34 then c :: compact 0 false false t
        else c :: compact 0 true false t
      else if jsonSpace c then compact 0 false false t
      else if c = 34 then c :: compact 0 true false t
      else c :: compact 0 false false t

/-- The JSON text of a `json.RawMessage`: `null` for a nil message, otherwise the message
compacted. -/
def encodeRawMessage (raw : Bytes) : Bytes :=
  if raw = [] then ascii "null" else compact 0 false false raw

/-- The first result of `json.Marshal(stdReq)`. -/
def jsonMarshalStdRequest (r : stdRequest) : Bytes :=
  ascii "\x7b\"jsonrpc\":" ++ encodeString r.Jsonrpc ++ ascii ",\"method\":" ++ encodeString r.Method
    ++ ascii ",\"params\":\x7b\"position\":" ++ encodePosition r.Params.Position
    ++ ascii ",\"textDocument\":\x7b\"uri\":" ++ encodeString r.Params.TextDocument.URI
    ++ ascii "\x7d\x7d,\"id\":" ++ encodeRawMessage r.ID ++ ascii "\x7d"

/-- The first result of `json.Marshal(classReq)`: the keys of a map are written in sorted
order. -/
def jsonMarshalClassReq (r : classReq) : Bytes :=
  ascii "\x7b\"id\":" ++ encodeInt r.id ++ ascii ",\"jsonrpc\":" ++ encodeString r.jsonrpc
    ++ ascii ",\"method\":" ++ encodeString r.method ++ ascii ",\"params\":\x7b\"uri\":"
    ++ encodeString r.params.uri ++ ascii "\x7d\x7d"

/-! ## A model of `net/url`, `strconv.Unquote` and `filepath.Dir` -/

/-- The modes of escaping of package `net/url`. -/
inductive Encoding
  | encodePath
  | encodePathSegment
  | encodeHost
  | encodeZone
  | encodeUserPassword
  | encodeQueryComponent
  | encodeFragment
  deriving DecidableEq, Repr

/-- An ASCII letter or digit. -/
def isAlnum (c : Nat) : Bool := (97 ≤ c && c ≤ 122) || (65 ≤ c && c ≤ 90) || (48 ≤ c && c ≤ 57)

/-- The function `shouldEscape` of package `net/url`. -/
def shouldEscape (c : Nat) (mode : Encoding) : Bool :=
  if isAlnum c then false
  else if (mode = Encoding.encodeHost ∨ mode = Encoding.encodeZone) ∧
      c ∈ [33, 36, 38, 39, 40, 41, 42, 43, 44, 59, 61, 58, 91, 93, 60, 62, 34] then false
  else if c ∈ [45, 95, 46, 126] then false
  else if c ∈ [36, 38, 43, 44, 47, 58, 59, 61, 63, 64] ∧ mode = Encoding.encodePath then c = 63
  else if c ∈ [36, 38, 43, 44, 47, 58, 59, 61, 63, 64] ∧ mode = Encoding.encodePathSegment then
    c = 47 || c = 59 || c = 44 || c = 63
  else if c ∈ [36, 38, 43, 44, 47, 58, 59, 61, 63, 64] ∧ mode = Encoding.encodeUserPassword then
    c = 64 || c = 47 || c = 63 || c = 58
  else if c ∈ [36, 38, 43, 44, 47, 58, 59, 61, 63, 64] ∧ mode = Encoding.encodeQueryComponent then
    true
  else if c ∈ [36, 38, 43, 44, 47, 58, 59, 61, 63, 64] ∧ mode = Encoding.encodeFragment then false
  else if mode = Encoding.encodeFragment ∧ c ∈ [33, 40, 41, 42] then false
  else true

/-- The check of the first loop of `unescape` of package `net/url`: every `%` is followed
by two hexadecimal digits, and in a host only bytes that may stand in a host appear. -/
def unescapeValid (mode : Encoding) : Bytes → Bool
  | [] => true
  | c :: t =>
    if c = 37 then
      match t with
      | a :: b :: _ =>
        if isHex a ∧ isHex b then
          if mode = Encoding.encodeHost ∧ hexVal a < 8 ∧ ¬ (a = 50 ∧ b = 53) then false
          else if mode = Encoding.encodeZone ∧ ¬ (a = 50 ∧ b = 53) ∧ hexVal a * 16 + hexVal b ≠ 32
              ∧ shouldEscape (hexVal a * 16 + hexVal b) Encoding.encodeHost then false
          else unescapeValid mode t
        else false
      | _ => false
    else if (mode = Encoding.encodeHost ∨ mode = Encoding.encodeZone) ∧ c < 0x80
        ∧ shouldEscape c Encoding.encodeHost then false
    else unescapeValid mode t

/-- The second loop of `unescape`; `skip` counts the hexadecimal digits of the current
escape that are still to be dropped. -/
def unescapeLoop (mode : Encoding) (skip : Nat) : Bytes → Bytes
  | [] => []
  | c :: t =>
    match skip with
    | k + 1 => unescapeLoop mode k t
    | 0 =>
      if c = 37 then (hexVal (t.headD 0) * 16 + hexVal (t.tail.headD 0)) :: unescapeLoop mode 2 t
      else if c = 43 ∧ mode = Encoding.encodeQueryComponent then 32 :: unescapeLoop mode 0 t
      else c :: unescapeLoop mode 0 t

/-- The function `unescape` of package `net/url`, `none` for an error. -/
def unescape (s : Bytes) (mode : Encoding) : Option Bytes :=
  if unescapeValid mode s then some (unescapeLoop mode 0 s) else none

/-- An upper case hexadecimal digit. -/
def upperHexDigit (n : Nat) : Nat := if n < 10 then 48 + n else 55 + n

/-- The function `escape` of package `net/url`. -/
def escape (mode : Encoding) : Bytes → Bytes
  | [] => []
  | c :: t =>
    if shouldEscape c mode then
      if c = 32 ∧ mode = Encoding.encodeQueryComponent then 43 :: escape mode t
      else 37 :: upperHexDigit (c / 16) :: upperHexDigit (c % 16) :: escape mode t
    else c :: escape mode t

/-- The text before the first occurrence of the byte `sep` and the text after it, as
`strings.Cut` gives them; the whole text and `none` when `sep` does not occur. -/
def cut (sep : Nat) : Bytes → Bytes × Option Bytes
  | [] => ([], none)
  | c :: t =>
    if c = sep then ([], some t)
    else
      let r := cut sep t
      (c :: r.1, r.2)

/-- The text before the last occurrence of the byte `sep` and the text after it; `none`
when `sep` does not occur. -/
def cutLast (sep : Nat) (s : Bytes) : Option (Bytes × Bytes) :=
  match cut sep s.reverse with
  | (_, none) => none
  | (after, some before) => some (before.reverse, after.reverse)

/-- The loop of `getScheme` of package `net/url`, with the bytes read so far (reversed):
`none` for the error `missing protocol scheme`, otherwise the scheme and the rest. -/
def getSchemeLoop (whole : Bytes) (seen : Bytes) : Bytes → Option (Bytes × Bytes)
  | [] => some ([], whole)
  | c :: t =>
    if (97 ≤ c ∧ c ≤ 122) ∨ (65 ≤ c ∧ c ≤ 90) then getSchemeLoop whole (c :: seen) t
    else if (48 ≤ c ∧ c ≤ 57) ∨ c = 43 ∨ c = 45 ∨ c = 46 then
      if seen = [] then some ([], whole) else getSchemeLoop whole (c :: seen) t
    else if c = 58 then
      if seen = [] then none else some (seen.reverse, t)
    else some ([], whole)

/-- The function `getScheme` of package `net/url`. -/
def getScheme (rawURL : Bytes) : Option (Bytes × Bytes) := getSchemeLoop rawURL [] rawURL

/-- Go `strings.ToLower` on ASCII text. -/
def toLowerASCII (s : Bytes) : Bytes := s.map (fun c => if 65 ≤ c ∧ c ≤ 90 then c + 32 else c)

/-- The function `validOptionalPort` of package `net/url`. -/
def validOptionalPort (port : Bytes) : Bool :=
  match port with
  | [] => true
  | c :: t => c = 58 && t.all isDigit

/-- The function `validUserinfo` of package `net/url`. -/
def validUserinfo (s : Bytes) : Bool :=
  s.all (fun c => isAlnum c ||
    decide (c ∈ [45, 46, 95, 58, 126, 33, 36, 38, 39, 40, 41, 42, 43, 44, 59, 61, 37, 64]))

/-- The position of the first occurrence of `%25` in a text, if any. -/
def indexZone : Bytes → Option Nat
  | [] => none
  | c :: t =>
    if c = 37 ∧ t.head? = some 50 ∧ t.tail.head? = some 53 then some 0
    else (indexZone t).map (fun i => i + 1)

/-- The function `parseHost` of package `net/url`, `none` for an error. -/
def parseHost (host : Bytes) : Option Bytes :=
  if host.head? = some 91 then
    match cutLast 93 host with
    | none => none
    | some (before, colonPort) =>
      if validOptionalPort colonPort = false then none
      else
        match indexZone before with
        | some zone =>
          match unescape (host.take zone) Encoding.encodeHost,
              unescape ((host.take before.length).drop zone) Encoding.encodeZone,
              unescape (host.drop before.length) Encoding.encodeHost with
          | some h1, some h2, some h3 => some (h1 ++ h2 ++ h3)
          | _, _, _ => none
        | none => unescape host Encoding.encodeHost
  else
    match cutLast 58 host with
    | some (_, port) =>
      if validOptionalPort (58 :: port) then unescape host Encoding.encodeHost else none
    | none => unescape host Encoding.encodeHost

/-- The function `parseAuthority` of package `net/url`, `none` for an error. -/
def parseAuthority (authority : Bytes) : Option (Option Userinfo × Bytes) :=
  match cutLast 64 authority with
  | none => (parseHost authority).map (fun h => (none, h))
  | some (userinfo, hostText) =>
    match parseHost hostText with
    | none => none
    | some host =>
      if validUserinfo userinfo = false then none
      else
        match cut 58 userinfo with
        | (_, none) =>
          (unescape userinfo Encoding.encodeUserPassword).map
            (fun u => (some { username := u, password := [], passwordSet := false }, host))
        | (username, some password) =>
          match unescape username Encoding.encodeUserPassword,
              unescape password Encoding.encodeUserPassword with
          | some u, some p => some (some { username := u, password := p, passwordSet := true }, host)
          | _, _ => none

/-- The number of occurrences of a byte. -/
def countByte (b : Nat) (s : Bytes) : Nat := (s.filter (fun c => c = b)).length

/-- The function `parse(rawURL, false)` of package `net/url` (Go 1.19 and later), `none`
for an error. -/
def urlparse (rawURL : Bytes) : Option URL :=
  if rawURL.any (fun b => b < 32 || b = 127) then none
  else if rawURL = [42] then
    some { Scheme := [], Opaque := [], User := none, Host := [], Path := [42], RawPath := [],
           OmitHost := false, ForceQuery := false, RawQuery := [], Fragment := [],
           RawFragment := [] }
  else
    match getScheme rawURL with
    | none => none
    | some (scheme0, rest0) =>
      let scheme := toLowerASCII scheme0
      let forceQuery : Bool := HasSuffix rest0 [63] && countByte 63 rest0 = 1
      let rest1 := if forceQuery then rest0.take (rest0.length - 1) else (cut 63 rest0).1
      let rawQuery := if forceQuery then [] else ((cut 63 rest0).2).getD []
      if rest1.head? ≠ some 47 ∧ scheme ≠ [] then
        some { Scheme := scheme, Opaque := rest1, User := none, Host := [], Path := [],
               RawPath := [], OmitHost := false, ForceQuery := forceQuery, RawQuery := rawQuery,
               Fragment := [], RawFragment := [] }
      else if rest1.head? ≠ some 47 ∧ 58 ∈ (cut 47 rest1).1 then none
      else
        let hasAuthority : Bool :=
          (decide (scheme ≠ []) || !HasPrefix rest1 [47, 47, 47]) && HasPrefix rest1 [47, 47]
        let authority := if hasAuthority then (cut 47 (rest1.drop 2)).1 else []
        let rest2 := if hasAuthority then (rest1.drop 2).drop authority.length else rest1
        let omitHost : Bool := !hasAuthority && decide (scheme ≠ []) && HasPrefix rest1 [47]
        match (if hasAuthority then parseAuthority authority else some (none, [])) with
        | none => none
        | some (user, host) =>
          match unescape rest2 Encoding.encodePath with
          | none => none
          | some path =>
            some { Scheme := scheme, Opaque := [], User := user, Host := host, Path := path,
                   RawPath := if escape Encoding.encodePath path = rest2 then [] else rest2,
                   OmitHost := omitHost, ForceQuery := forceQuery, RawQuery := rawQuery,
                   Fragment := [], RawFragment := [] }

/-- Go `url.Parse`, `none` when it returns an error. -/
def urlParse (rawURL : Bytes) : Option URL :=
  match urlparse (cut 35 rawURL).1 with
  | none => none
  | some url =>
    match (cut 35 rawURL).2 with
    | none => some url
    | some [] => some url
    | some frag =>
      match unescape frag Encoding.encodeFragment with
      | none => none
      | some f =>
        some { url with
          Fragment := f
          RawFragment := if escape Encoding.encodeFragment f = frag then [] else frag }

/-- The function `validEncoded` of package `net/url`. -/
def validEncoded (s : Bytes) (mode : Encoding) : Bool :=
  s.all (fun c =>
    decide (c ∈ [33, 36, 38, 39, 40, 41, 42, 43, 44, 59, 61, 58, 64, 91, 93, 37])
      || !shouldEscape c mode)

/-- The method `EscapedPath` of `*url.URL`. -/
def EscapedPath (u : URL) : Bytes :=
  if u.RawPath ≠ [] ∧ validEncoded u.RawPath Encoding.encodePath
      ∧ unescape u.RawPath Encoding.encodePath = some u.Path then u.RawPath
  else if u.Path = [42] then [42]
  else escape Encoding.encodePath u.Path

/-- The method `EscapedFragment` of `*url.URL`. -/
def EscapedFragment (u : URL) : Bytes :=
  if u.RawFragment ≠ [] ∧ validEncoded u.RawFragment Encoding.encodeFragment
      ∧ unescape u.RawFragment Encoding.encodeFragment = some u.Fragment then u.RawFragment
  else escape Encoding.encodeFragment u.Fragment

/-- The method `String` of `*url.Userinfo`. -/
def userinfoString (ui : Userinfo) : Bytes :=
  escape Encoding.encodeUserPassword ui.username
    ++ (if ui.passwordSet then 58 :: escape Encoding.encodeUserPassword ui.password else [])

/-- The method `String` of `*url.URL` (Go 1.19 and later). -/
def urlString (u : URL) : Bytes :=
  let schemePart := if u.Scheme ≠ [] then u.Scheme ++ [58] else []
  let body :=
    if u.Opaque ≠ [] then u.Opaque
    else
      let authority :=
        if u.Scheme ≠ [] ∨ u.Host ≠ [] ∨ u.User ≠ none then
          if u.OmitHost ∧ u.Host = [] ∧ u.User = none then []
          else
            (if u.Host ≠ [] ∨ u.Path ≠ [] ∨ u.User ≠ none then [47, 47] else [])
              ++ (match u.User with
                  | some ui => userinfoString ui ++ [64]
                  | none => [])
              ++ (if u.Host ≠ [] then escape Encoding.encodeHost u.Host else [])
        else []
      let path := EscapedPath u
      let slash := if path ≠ [] ∧ path.head? ≠ some 47 ∧ u.Host ≠ [] then [47] else []
      let dot :=
        if schemePart ++ authority ++ slash = [] ∧ 58 ∈ (cut 47 path).1 then [46, 47] else []
      authority ++ slash ++ dot ++ path
  schemePart ++ body
    ++ (if u.ForceQuery ∨ u.RawQuery ≠ [] then 63 :: u.RawQuery else [])
    ++ (if u.Fragment ≠ [] then 35 :: EscapedFragment u else [])

/-! ### `strconv.Unquote` -/

/-- Go `utf8.ValidRune`. -/
def ValidRune (r : Nat) : Bool := r < 0xD800 || (0xDFFF < r && r ≤ 0x10FFFF)

/-- The value of `n` hexadecimal digits at the start of a text, `none` when there are
fewer. -/
def hexRun : Nat → Bytes → Option Nat
  | 0, _ => some 0
  | n + 1, s =>
    match hexRun n (s.take n) with
    | none => none
    | some v =>
      match s.drop n with
      | c :: _ => if isHex c then some (v * 16 + hexVal c) else none
      | [] => none

/-- Go `strconv.UnquoteChar(s, quote)`: the bytes the first character or escape of `s`
stands for and the number of bytes of `s` it takes, `none` for an error. -/
def UnquoteChar (s : Bytes) (quote : Nat) : Option (Bytes × Nat) :=
  match s with
  | [] => none
  | c :: t =>
    if c = quote ∧ (quote = 39 ∨ quote = 34) then none
    else if 0x80 ≤ c then
      let d := DecodeRune (c :: t)
      some (EncodeRune d.1, d.2)
    else if c ≠ 92 then some ([c], 1)
    else
      match t with
      | [] => none
      | e :: r =>
        if e = 97 then some ([7], 2)
        else if e = 98 then some ([8], 2)
        else if e = 102 then some ([12], 2)
        else if e = 110 then some ([10], 2)
        else if e = 114 then some ([13], 2)
        else if e = 116 then some ([9], 2)
        else if e = 118 then some ([11], 2)
        else if e = 120 then (hexRun 2 r).map (fun v => ([v], 4))
        else if e = 117 then
          match hexRun 4 r with
          | some v => if ValidRune v then some (EncodeRune v, 6) else none
          | none => none
        else if e = 85 then
          match hexRun 8 r with
          | some v => if ValidRune v then some (EncodeRune v, 10) else none
          | none => none
        else if 48 ≤ e ∧ e ≤ 55 then
          match r with
          | a :: b :: _ =>
            if 48 ≤ a ∧ a ≤ 55 ∧ 48 ≤ b ∧ b ≤ 55 ∧ (e - 48) * 64 + (a - 48) * 8 + (b - 48) ≤ 255 then
              some ([(e - 48) * 64 + (a - 48) * 8 + (b - 48)], 4)
            else none
          | _ => none
        else if e = 92 then some ([92], 2)
        else if (e = 39 ∨ e = 34) ∧ e = quote then some ([e], 2)
        else none

/-- The loop of `unquote` of package `strconv` over the text after the opening quote:
the decoded text when the loop ends at a closing quote that is the last byte. The first
argument bounds the number of iterations and is at least the length of the text. -/
def unquoteChars (quote : Nat) : Nat → Bytes → Option Bytes
  | 0, _ => none
  | fuel + 1, s =>
    match s with
    | [] => none
    | c :: t =>
      if c = quote then (if t = [] then some [] else none)
      else if c = 10 then none
      else
        match UnquoteChar (c :: t) quote with
        | none => none
        | some (bs, n) =>
          if quote = 39 then
            (if (c :: t).drop n = [39] then some bs else none)
          else (unquoteChars quote fuel ((c :: t).drop n)).map (fun r => bs ++ r)

/-- Go `strconv.Unquote`: the text denoted by a Go string literal in double quotes, in
back quotes, or a character literal in single quotes; `none` when it returns an error. -/
def Unquote (s : Bytes) : Option Bytes :=
  match s with
  | q :: c :: t =>
    if q = 96 then
      if (c :: t).getLast? = some 96 ∧ 96 ∉ (c :: t).dropLast then
        some ((c :: t).dropLast.filter (fun b => b ≠ 13))
      else none
    else if q = 34 ∨ q = 39 then unquoteChars q (s.length + 1) (c :: t)
    else none
  | _ => none

/-! ### `filepath.Dir` -/

/-- The elements of a slash separated path. -/
def splitPath (cur : Bytes) : Bytes → List Bytes
  | [] => [cur.reverse]
  | c :: t => if c = 47 then cur.reverse :: splitPath [] t else splitPath (c :: cur) t

/-- The elements that `filepath.Clean` keeps, innermost first: empty elements and `.` are
dropped, and `..` removes the element before it, is dropped at the root, and is kept at
the start of a relative path. -/
def cleanElements (rooted : Bool) (kept : List Bytes) : List Bytes → List Bytes
  | [] => kept
  | e :: rest =>
    if e = [] ∨ e = [46] then cleanElements rooted kept rest
    else if e = [46, 46] then
      match kept with
      | top :: below =>
        if top = [46, 46] then cleanElements rooted (e :: kept) rest
        else cleanElements rooted below rest
      | [] => if rooted then cleanElements rooted [] rest else cleanElements rooted [e] rest
    else cleanElements rooted (e :: kept) rest

/-- The elements joined by slashes. -/
def joinPath : List Bytes → Bytes
  | [] => []
  | [x] => x
  | x :: y :: rest => x ++ 47 :: joinPath (y :: rest)

/-- Go `filepath.Clean` on a system whose separator is the slash. -/
def Clean (path : Bytes) : Bytes :=
  let rooted : Bool := path.head? = some 47
  let body := joinPath (cleanElements rooted [] (splitPath [] path)).reverse
  if rooted then 47 :: body else if body = [] then [46] else body

/-- Go `filepath.Dir` on a system whose separator is the slash. -/
def Dir (path : Bytes) : Bytes :=
  match cutLast 47 path with
  | none => Clean []
  | some (before, _) => Clean (before ++ [47])

/-- The model of the library functions given in this file. -/
def golib : Library :=
  { UnmarshalJdtResponse := jsonUnmarshalJdtResponse
    UnmarshalStdRequest := jsonUnmarshalStdRequest
    UnmarshalDefinitionResult := jsonUnmarshalDefinitionResult
    MarshalStdRequest := jsonMarshalStdRequest
    MarshalClassReq := jsonMarshalClassReq
    MarshalStdResponse := jsonMarshalStdResponse
    Parse := urlParse
    URLString := urlString
    Unquote := Unquote
    Dir := Dir }

/-! ## Example messages -/

/-- The result of a definition request: one location in the class file `pkg/Foo.class`,
which only the server can read. -/
def exLocations : Bytes :=
  ascii "[\x7b\"uri\":\"jdt://contents/pkg/Foo.class\",\"range\":\x7b\"start\":\x7b\"line\":0,\"character\":0\x7d,\"end\":\x7b\"line\":0,\"character\":3\x7d\x7d\x7d]"

/-- The same result with the scheme of the URI written in capitals. -/
def exLocationsUpper : Bytes :=
  ascii "[\x7b\"uri\":\"JDT://contents/pkg/Foo.class\",\"range\":\x7b\"start\":\x7b\"line\":0,\"character\":0\x7d,\"end\":\x7b\"line\":0,\"character\":3\x7d\x7d\x7d]"

/-- The result of a definition request: one location in an ordinary file. -/
def exLocationsFile : Bytes :=
  ascii "[\x7b\"uri\":\"file:///home/u/Bar.java\",\"range\":\x7b\"start\":\x7b\"line\":0,\"character\":0\x7d,\"end\":\x7b\"line\":0,\"character\":3\x7d\x7d\x7d]"

/-- The server's answer to the definition request with id 5. -/
def exDefinition : Bytes :=
  ascii "\x7b\"jsonrpc\":\"2.0\",\"id\":5,\"result\":" ++ exLocations ++ ascii "\x7d"

/-- The server's answer to the definition request with id 5, the scheme in capitals. -/
def exDefinitionUpper : Bytes :=
  ascii "\x7b\"jsonrpc\":\"2.0\",\"id\":5,\"result\":" ++ exLocationsUpper ++ ascii "\x7d"

/-- The server's answer to a definition request with id 7, pointing into an ordinary file. -/
def exDefinitionFile : Bytes :=
  ascii "\x7b\"jsonrpc\":\"2.0\",\"id\":7,\"result\":" ++ exLocationsFile ++ ascii "\x7d"

/-- The request the relay sends to the server for the contents of `pkg/Foo.class`. -/
def exClassReq : Bytes :=
  ascii "\x7b\"id\":6,\"jsonrpc\":\"2.0\",\"method\":\"java/classFileContents\",\"params\":\x7b\"uri\":\"jdt://contents/pkg/Foo.class\"\x7d\x7d"

/-- The request for the contents when the URI was reported with its scheme in capitals. -/
def exClassReqUpper : Bytes :=
  ascii "\x7b\"id\":6,\"jsonrpc\":\"2.0\",\"method\":\"java/classFileContents\",\"params\":\x7b\"uri\":\"JDT://contents/pkg/Foo.class\"\x7d\x7d"

/-- The server's answer to the request for the contents. -/
def exContents : Bytes :=
  ascii "\x7b\"jsonrpc\":\"2.0\",\"id\":6,\"result\":\"class Foo \x7b\x7d\\n\"\x7d"

/-- An answer to the request for the contents whose result is a JSON string with the escape
`\/`, which `strconv.Unquote` does not accept. -/
def exContentsBadEscape : Bytes :=
  ascii "\x7b\"jsonrpc\":\"2.0\",\"id\":6,\"result\":\"a\\/b\"\x7d"

/-- The server's answer to another request of the client, one with id 6. -/
def exHover : Bytes :=
  ascii "\x7b\"jsonrpc\":\"2.0\",\"id\":6,\"result\":\x7b\"contents\":\"doc\"\x7d\x7d"

/-- The server's answer to another request of the client, one with id 9. -/
def exHover9 : Bytes :=
  ascii "\x7b\"jsonrpc\":\"2.0\",\"id\":9,\"result\":\x7b\"contents\":\"doc\"\x7d\x7d"

/-- A notification of the server. -/
def exNotification : Bytes :=
  ascii "\x7b\"jsonrpc\":\"2.0\",\"method\":\"window/logMessage\",\"params\":\x7b\"type\":3,\"message\":\"ready\"\x7d\x7d"

/-- The answer the relay gives the client for the definition request with id 5. -/
def exRewritten : Bytes :=
  ascii "\x7b\"jsonrpc\":\"2.0\",\"id\":5,\"result\":[\x7b\"targetUri\":\"file:///tmp/pkg/Foo.java\",\"targetRange\":\x7b\"start\":\x7b\"line\":0,\"character\":0\x7d,\"end\":\x7b\"line\":0,\"character\":3\x7d\x7d,\"targetSelectionRange\":\x7b\"start\":\x7b\"line\":0,\"character\":0\x7d,\"end\":\x7b\"line\":0,\"character\":3\x7d\x7d\x7d]\x7d"

/-- A definition request of the client inside the materialized file. -/
def exClientRequest : Bytes :=
  ascii "\x7b\"jsonrpc\":\"2.0\",\"id\":8,\"method\":\"textDocument/definition\",\"params\":\x7b\"textDocument\":\x7b\"uri\":\"file:///tmp/pkg/Foo.java\"\x7d,\"position\":\x7b\"line\":1,\"character\":2\x7d\x7d\x7d"

/-- The request above as the relay forwards it to the server. -/
def exClientForwarded : Bytes :=
  ascii "\x7b\"jsonrpc\":\"2.0\",\"method\":\"textDocument/definition\",\"params\":\x7b\"position\":\x7b\"line\":1,\"character\":2\x7d,\"textDocument\":\x7b\"uri\":\"jdt://contents/pkg/Foo.class\"\x7d\x7d,\"id\":8\x7d"

/-- The URI `jdt://contents/pkg/Foo.class` after `url.Parse`. -/
def exURL : URL :=
  { Scheme := ascii "jdt", Opaque := [], User := none, Host := ascii "contents",
    Path := ascii "/pkg/Foo.class", RawPath := [], OmitHost := false, ForceQuery := false,
    RawQuery := [], Fragment := [], RawFragment := [] }

/-- The URI `file:///home/u/Bar.java` after `url.Parse`. -/
def exFileURL : URL :=
  { Scheme := ascii "file", Opaque := [], User := none, Host := [],
    Path := ascii "/home/u/Bar.java", RawPath := [], OmitHost := false, ForceQuery := false,
    RawQuery := [], Fragment := [], RawFragment := [] }

/-- The range of the example locations, from line 0 character 0 to line 0 character 3. -/
def exRange : Range :=
  { Start := { Line := 0, Character := 0 }, End := { Line := 0, Character := 3 } }

/-- The first location of `exLocations`. -/
def exLocation : jdtResult := { URI := ascii "jdt://contents/pkg/Foo.class", Range := exRange }

/-- The continuation registered for the definition answer with id 5. -/
def exClosure : Closure := { id := 5, location := exLocation, uri := exURL }

/-- The state after the definition answer with id 5 was intercepted. -/
def exPending : State := { m := [], pending := [(6, exClosure)] }

/-- The state after the file for `pkg/Foo.class` was written. -/
def exMaterialized : State :=
  { m := [(ascii "file:///tmp/pkg/Foo.java", ascii "jdt://contents/pkg/Foo.class")], pending := [] }

/-- The file system calls that write the file for `pkg/Foo.class` with the given text. -/
def exFiles (content : Bytes) : List FileOp :=
  [FileOp.MkdirAll (ascii "/tmp/pkg") 0o755,
   FileOp.WriteFile (ascii "/tmp/pkg/Foo.java") content 0o400]

/-! ## Further example messages -/

/-- The server's answer to a definition request with id 5 whose location has the URI `:foo`,
which `url.Parse` rejects (missing protocol scheme). -/
def exDefinitionBadURI : Bytes :=
  ascii "\x7b\"jsonrpc\":\"2.0\",\"id\":5,\"result\":[\x7b\"uri\":\":foo\",\"range\":\x7b\"start\":\x7b\"line\":0,\"character\":0\x7d,\"end\":\x7b\"line\":0,\"character\":3\x7d\x7d\x7d]\x7d"

/-- A response whose id is the number 9007199254740993, which is `2 ^ 53 + 1`. -/
def exBigNumberId : Bytes :=
  ascii "\x7b\"jsonrpc\":\"2.0\",\"id\":9007199254740993,\"result\":null\x7d"

/-- A response whose id is the string `"9007199254740993"`. -/
def exBigStringId : Bytes :=
  ascii "\x7b\"jsonrpc\":\"2.0\",\"id\":\"9007199254740993\",\"result\":null\x7d"

/-- A response whose id is `true`. -/
def exBoolId : Bytes :=
  ascii "\x7b\"jsonrpc\":\"2.0\",\"id\":true,\"result\":[]\x7d"

/-- A request of the client inside the materialized file that has the member
`params.context` besides the position and the document. -/
def exReferences : Bytes :=
  ascii "\x7b\"jsonrpc\":\"2.0\",\"id\":8,\"method\":\"textDocument/references\",\"params\":\x7b\"textDocument\":\x7b\"uri\":\"file:///tmp/pkg/Foo.java\"\x7d,\"position\":\x7b\"line\":1,\"character\":2\x7d,\"context\":\x7b\"includeDeclaration\":true\x7d\x7d\x7d"

/-- The request above as the relay forwards it to the server. -/
def exReferencesForwarded : Bytes :=
  ascii "\x7b\"jsonrpc\":\"2.0\",\"method\":\"textDocument/references\",\"params\":\x7b\"position\":\x7b\"line\":1,\"character\":2\x7d,\"textDocument\":\x7b\"uri\":\"jdt://contents/pkg/Foo.class\"\x7d\x7d,\"id\":8\x7d"

/-- A request of the client for a document that is not in the URI rewrite table. -/
def exOtherRequest : Bytes :=
  ascii "\x7b\"jsonrpc\":\"2.0\",\"id\":9,\"method\":\"textDocument/hover\",\"params\":\x7b\"textDocument\":\x7b\"uri\":\"file:///home/u/Bar.java\"\x7d,\"position\":\x7b\"line\":1,\"character\":2\x7d,\"extra\":[1, 2]\x7d\x7d"

/-- The server's answer to the request for the contents, for a class file whose text is
`s = "a\nb";` - a Java string literal that holds a backslash followed by `n`. -/
def exContentsLiteral : Bytes :=
  ascii "\x7b\"jsonrpc\":\"2.0\",\"id\":6,\"result\":\"s = \\\"a\\\\nb\\\";\"\x7d"

/-- The line of a header block that declares the length `n` as the relay's peers may write
it: the key `Content-Length:`, `k` spaces, the decimal digits of `n`, and `\r\n`. -/
def lengthHeader (k n : Nat) : Bytes :=
  contentLengthKey ++ List.replicate k 32 ++ decimal n ++ crlf

/-- A line of a header block that is neither the empty line that ends the block nor a
length header as `readLSPMessage` recognises it: it ends with its only newline, it is not
`\r\n`, and it does not start with `Content-Length:`. -/
def OtherHeader (line : Bytes) : Prop :=
  line.getLast? = some 10 ∧ 10 ∉ line.dropLast ∧ line ≠ crlf ∧
    HasPrefix line contentLengthKey = false

/-- The lines of a header block one after the other. -/
def joinLines : List Bytes → Bytes
  | [] => []
  | l :: ls => l ++ joinLines ls

/-- A header block that declares the length `n`: other header lines, the length header,
other header lines, and the empty line `\r\n`. -/
def headerBlock (before : List Bytes) (k n : Nat) (after : List Bytes) : Bytes :=
  joinLines before ++ lengthHeader k n ++ joinLines after ++ crlf

/-- A spelling of the header key `Content-Length` in some letter case. -/
def CaseVariant (key : Bytes) : Prop := toLowerASCII key = ascii "content-length"

/-- The text of the member `name` of the JSON object with the given text, if the object
has such a member. -/
def getMember (raw : Bytes) (name : String) : Option Bytes :=
  ((membersOf (valueText raw)).find? (fun kv => jsonUnquote kv.1 = ascii name)).map
    (fun kv => kv.2)

/-- Whether the non-empty text `old` occurs in a text. -/
def occursIn (old : Bytes) : Bytes → Bool
  | [] => false
  | c :: t => old.isPrefixOf (c :: t) || occursIn old t

instance (line : Bytes) : Decidable (OtherHeader line) := by
  unfold OtherHeader
  infer_instance

instance (key : Bytes) : Decidable (CaseVariant key) := by
  unfold CaseVariant
  infer_instance

/-- Whether a frame is a server response whose id `getID` resolves to `k`. -/
def answers (L : Library) (k : Int) : Event → Bool
  | Event.client _ => false
  | Event.server body =>
    match L.UnmarshalJdtResponse body with
    | some r => decide (getID r.ID = (k, true))
    | none => false

/-! ## Theorems about the frame codec -/

theorem contentLengthKey_eq :
    contentLengthKey = [67, 111, 110, 116, 101, 110, 116, 45, 76, 101, 110, 103, 116, 104, 58] := by
  decide

theorem ReadString_append (d : Nat) (pre post : Bytes) (h : d ∉ pre) :
    ReadString d (pre ++ d :: post) = (pre ++ [d], none, post) := by
  induction pre with
  | nil => simp [ReadString]
  | cons c t ih =>
    have hc : c ≠ d := fun e => h (by simp [e])
    have ht : d ∉ t := fun e => h (by simp [e])
    simp [ReadString, hc, ih ht]

theorem decimalRev_digits : ∀ (fuel n : Nat), ∀ c ∈ decimalRev fuel n, isDigit c = true := by
  intro fuel
  induction fuel with
  | zero => intro n c hc; simp [decimalRev] at hc
  | succ f ih =>
    intro n c hc
    unfold decimalRev at hc
    split at hc
    · simp at hc; subst hc; simp [isDigit]; omega
    · simp at hc
      rcases hc with hc | hc
      · subst hc; simp [isDigit]; omega
      · exact ih _ c hc

theorem decimalRev_ne_nil (fuel n : Nat) : decimalRev (fuel + 1) n ≠ [] := by
  unfold decimalRev; split <;> simp

theorem digitsVal_reverse (l : Bytes) : digitsVal l.reverse = valRev l := by
  induction l with
  | nil => rfl
  | cons c t ih =>
    simp only [digitsVal, List.reverse_cons, List.foldl_append, List.foldl_cons, List.foldl_nil] at ih ⊢
    rw [ih]; simp [valRev]; ring

theorem valRev_decimalRev : ∀ (fuel n : Nat), n < fuel → valRev (decimalRev fuel n) = n := by
  intro fuel
  induction fuel with
  | zero => intro n h; omega
  | succ f ih =>
    intro n h
    unfold decimalRev
    split
    · simp [valRev]
    · rename_i h10
      simp only [valRev]
      rw [ih (n / 10) (by omega)]
      omega

theorem decimal_digits (n : Nat) : ∀ c ∈ decimal n, isDigit c = true := by
  intro c hc
  exact decimalRev_digits (n + 1) n c (by simpa [decimal] using hc)

theorem decimal_ne_nil (n : Nat) : decimal n ≠ [] := by
  simp [decimal, decimalRev_ne_nil]

theorem digitsVal_decimal (n : Nat) : digitsVal (decimal n) = n := by
  rw [decimal, digitsVal_reverse, valRev_decimalRev _ _ (by omega)]

theorem isDigit_bounds {c : Nat} (h : isDigit c = true) : 48 ≤ c ∧ c ≤ 57 := by
  simpa [isDigit] using h

theorem asciiSpace_digit {c : Nat} (h : isDigit c = true) : asciiSpace c = false := by
  have hb := isDigit_bounds h
  simp [asciiSpace]; omega

theorem trimSpaceStop_digit (c : Nat) (t : Bytes) (h : isDigit c = true) :
    trimSpaceStop (c :: t) = (c :: t).reverse := by
  have hb := isDigit_bounds h
  have h1 : ¬ (128 ≤ c) := by omega
  rw [trimSpaceStop, if_neg h1, asciiSpace_digit h]; simp

theorem trimSpaceStop_space (c : Nat) (t : Bytes) (h1 : ¬ (128 ≤ c)) (h2 : asciiSpace c = true) :
    trimSpaceStop (c :: t) = trimSpaceStop t := by
  rw [trimSpaceStop, if_neg h1, h2]; simp

theorem TrimSpace_space (c : Nat) (t : Bytes) (h1 : ¬ (128 ≤ c)) (h2 : asciiSpace c = true) :
    TrimSpace (c :: t) = TrimSpace t := by
  rw [TrimSpace, if_neg h1, h2]; simp

theorem TrimSpace_digit (c : Nat) (t : Bytes) (h : isDigit c = true) :
    TrimSpace (c :: t) = trimSpaceStop (c :: t).reverse := by
  have hb := isDigit_bounds h
  have h1 : ¬ (128 ≤ c) := by omega
  rw [TrimSpace, if_neg h1, asciiSpace_digit h]; simp

theorem TrimSpace_header_value (ds : Bytes) (hne : ds ≠ []) (hd : ∀ c ∈ ds, isDigit c = true) :
    TrimSpace (32 :: (ds ++ [13, 10])) = ds := by
  cases ds with
  | nil => exact absurd rfl hne
  | cons d ds' =>
  have hr : (d :: ds').reverse ≠ [] := by simp
  cases hes : (d :: ds').reverse with
  | nil => exact absurd hes hr
  | cons e es =>
  have he : isDigit e = true := hd e (by
    have : e ∈ (d :: ds').reverse := by rw [hes]; simp
    exact List.mem_reverse.mp this)
  have hstop : trimSpaceStop (10 :: 13 :: (d :: ds').reverse) = d :: ds' := by
    rw [trimSpaceStop_space 10 _ (by omega) (by decide),
      trimSpaceStop_space 13 _ (by omega) (by decide),
      hes, trimSpaceStop_digit e es he, ← hes, List.reverse_reverse]
  rw [TrimSpace_space 32 _ (by omega) (by decide)]
  rw [List.cons_append, TrimSpace_digit d _ (hd d (by simp))]
  have hrev : (d :: (ds' ++ [13, 10])).reverse = 10 :: 13 :: (d :: ds').reverse := by simp
  rw [hrev]; exact hstop

theorem Atoi_decimal (n : Nat) (h : n < 2 ^ 63) : Atoi (decimal n) = Except.ok (n : Int) := by
  obtain ⟨d, ds', hds⟩ := List.exists_cons_of_ne_nil (decimal_ne_nil n)
  have hd : ∀ c ∈ decimal n, isDigit c = true := decimal_digits n
  have hb := isDigit_bounds (hd d (by rw [hds]; simp))
  have hall : (decimal n).all isDigit = true := by
    rw [List.all_eq_true]; exact hd
  have h45 : (decimal n).head? ≠ some 45 := by rw [hds]; simp; omega
  have h43 : (decimal n).head? ≠ some 43 := by rw [hds]; simp; omega
  unfold Atoi
  simp only [h45, h43, or_self, if_false, decimal_ne_nil, hall, digitsVal_decimal]
  simp
  omega

theorem ascii_header_eq :
    ascii "Content-Length: " =
      [67, 111, 110, 116, 101, 110, 116, 45, 76, 101, 110, 103, 116, 104, 58, 32] := by
  decide

theorem ascii_terminator_eq : ascii "\r\n\r\n" = [13, 10, 13, 10] := by decide

theorem frame_eq (b : Bytes) :
    frame b = (contentLengthKey ++ 32 :: (decimal b.length ++ [13])) ++ 10 :: ([13] ++ 10 :: b) := by
  simp [frame, ascii_header_eq, ascii_terminator_eq, contentLengthKey_eq]

theorem newline_not_mem_header (n : Nat) : 10 ∉ contentLengthKey ++ 32 :: (decimal n ++ [13]) := by
  intro h
  simp [contentLengthKey_eq] at h
  have := isDigit_bounds (decimal_digits n 10 h)
  omega

theorem readHeaders_frame (fuel : Nat) (cl : Int) (b rest : Bytes) (h : b.length ≤ maxAlloc) :
    readHeaders (fuel + 2) cl (frame b ++ rest) = ReadResult.ok b rest := by
  have hlen : b.length < 2 ^ 63 := by
    have : maxAlloc < 2 ^ 63 := by decide
    omega
  rw [frame_eq, List.append_assoc, List.cons_append, readHeaders,
    ReadString_append 10 _ _ (newline_not_mem_header _)]
  have hline : (contentLengthKey ++ 32 :: (decimal b.length ++ [13])) ++ [10] ≠ crlf := by
    simp [contentLengthKey_eq, crlf]
  have hpre : HasPrefix ((contentLengthKey ++ 32 :: (decimal b.length ++ [13])) ++ [10])
      contentLengthKey = true := by
    simp [HasPrefix, List.append_assoc]
  have hdrop : ((contentLengthKey ++ 32 :: (decimal b.length ++ [13])) ++ [10]).drop
      contentLengthKey.length = 32 :: (decimal b.length ++ [13, 10]) := by
    simp [List.append_assoc]
  simp only [hline, if_false, hpre, if_true, hdrop]
  rw [TrimSpace_header_value _ (decimal_ne_nil _) (decimal_digits _), Atoi_decimal _ hlen]
  simp only []
  have hcr : ReadString 10 ([13] ++ 10 :: b ++ rest) = ([13, 10], none, b ++ rest) := by
    have := ReadString_append 10 [13] (b ++ rest) (by simp)
    simpa using this
  rw [readHeaders, hcr]
  have hmax : ¬ ((b.length : Int) < 0 ∨ (maxAlloc : Int) < (b.length : Int)) := by
    omega
  simp [crlf, readBody, hmax, ReadFull, h]


theorem readLSPMessage_frame (b rest : Bytes) (h : b.length ≤ maxAlloc) :
    readLSPMessage (frame b ++ rest) = ReadResult.ok b rest := by
  have hl : (frame b ++ rest).length + 1 = ((frame b ++ rest).length - 1) + 2 := by
    have : 1 ≤ (frame b ++ rest).length := by
      rw [frame_eq]; simp; omega
    omega
  rw [readLSPMessage, hl]
  exact readHeaders_frame _ 0 b rest h

theorem readMany_frames (bs : List Bytes) (rest : Bytes) (h : ∀ b ∈ bs, b.length ≤ maxAlloc) :
    readMany bs.length (frames bs ++ rest) = some (bs, rest) := by
  induction bs with
  | nil => simp [readMany, frames]
  | cons b bs ih =>
    have hb : b.length ≤ maxAlloc := h b (by simp)
    have hbs : ∀ b' ∈ bs, b'.length ≤ maxAlloc := fun b' hb' => h b' (by simp [hb'])
    simp only [List.length_cons, readMany, frames, List.append_assoc]
    rw [readLSPMessage_frame b _ hb]
    simp only [ih hbs]

/-- C1 (frame round trip). For every payload `b` (of a size the Go runtime can allocate, as
every `[]byte` is), `readLSPMessage` on a stream that holds the frame written for `b`
returns exactly `b` and no error, leaving the rest of the stream unread; and for every
list of payloads written as consecutive frames, successive calls return the payloads in
the order written. -/
theorem C1_frame_round_trip (b : Bytes) (bs : List Bytes) (rest : Bytes)
    (hb : b.length ≤ maxAlloc) (hbs : ∀ p ∈ bs, p.length ≤ maxAlloc) :
    readLSPMessage (frame b ++ rest) = ReadResult.ok b rest ∧
      readMany bs.length (frames bs ++ rest) = some (bs, rest) :=
  ⟨readLSPMessage_frame b rest hb, readMany_frames bs rest hbs⟩

/-- Witness for C1: the frames of `hello` and of the payloads `a`, the empty payload and
`bc`, followed by unread input `x`. -/
theorem C1_frame_round_trip_witness :
    (ascii "hello").length ≤ maxAlloc ∧
      (∀ p ∈ [ascii "a", [], ascii "bc"], p.length ≤ maxAlloc) ∧
      readLSPMessage (frame (ascii "hello") ++ ascii "x") = ReadResult.ok (ascii "hello") (ascii "x") ∧
      readMany 3 (frames [ascii "a", [], ascii "bc"] ++ ascii "x")
        = some ([ascii "a", [], ascii "bc"], ascii "x") :=
  have h1 : (ascii "hello").length ≤ maxAlloc := by decide
  have h2 : ∀ p ∈ [ascii "a", [], ascii "bc"], p.length ≤ maxAlloc := by decide
  ⟨h1, h2, (C1_frame_round_trip (ascii "hello") [ascii "a", [], ascii "bc"] (ascii "x") h1 h2).1,
    (C1_frame_round_trip (ascii "hello") [ascii "a", [], ascii "bc"] (ascii "x") h1 h2).2⟩

theorem ReadString_rest_lt (d : Nat) (r : Bytes) :
    (ReadString d r).2.1 = none → (ReadString d r).2.2.length < r.length := by
  induction r with
  | nil => simp [ReadString]
  | cons c t ih =>
    unfold ReadString
    split
    · simp
    · intro h
      have := ih h
      simp only [List.length_cons]
      omega

theorem readHeaders_ne_outOfFuel : ∀ (fuel : Nat) (cl : Int) (r : Bytes), r.length < fuel →
    readHeaders fuel cl r ≠ ReadResult.outOfFuel := by
  intro fuel
  induction fuel with
  | zero => intro cl r h; omega
  | succ f ih =>
    intro cl r h
    have hlen := ReadString_rest_lt 10 r
    rw [readHeaders]
    rcases hrs : ReadString 10 r with ⟨line, e, rest⟩
    rw [hrs] at hlen
    cases e with
    | some e => simp
    | none =>
      have hr : rest.length < f := by
        have := hlen rfl
        simp only at this
        omega
      simp only []
      split
      · unfold readBody
        split
        · simp
        · split <;> simp
      · split
        · split
          · simp
          · exact ih _ _ hr
        · exact ih _ _ hr

/-- The header loop never uses up its bound: `readLSPMessage` returns or panics. -/
theorem readLSPMessage_ne_outOfFuel (r : Bytes) : readLSPMessage r ≠ ReadResult.outOfFuel :=
  readHeaders_ne_outOfFuel _ 0 r (Nat.lt_succ_self _)

/-! ## Theorems about the tables and ids -/

theorem Table.get_set_self {κ ν : Type} [DecidableEq κ] (k : κ) (v : ν) (t : Table κ ν) :
    Table.get k (Table.set k v t) = some v := by
  induction t with
  | nil => simp [Table.set, Table.get]
  | cons p t ih =>
    obtain ⟨k', v'⟩ := p
    by_cases h : k' = k
    · simp [Table.set, Table.get, h]
    · simp [Table.set, Table.get, h, ih]

theorem Table.get_set_other {κ ν : Type} [DecidableEq κ] (k k2 : κ) (v : ν) (t : Table κ ν)
    (h : k2 ≠ k) : Table.get k2 (Table.set k v t) = Table.get k2 t := by
  induction t with
  | nil =>
    have h' : ¬ k = k2 := fun e => h e.symm
    simp [Table.set, Table.get, h']
  | cons p t ih =>
    obtain ⟨k', v'⟩ := p
    by_cases h1 : k' = k
    · subst h1
      have h' : ¬ k' = k2 := fun e => h e.symm
      simp [Table.set, Table.get, h']
    · by_cases h2 : k' = k2
      · subst h2
        simp [Table.set, Table.get, h1]
      · simp [Table.set, Table.get, h1, h2, ih]

theorem Table.set_set_self {κ ν : Type} [DecidableEq κ] (k : κ) (v : ν) (t : Table κ ν) :
    Table.set k v (Table.set k v t) = Table.set k v t := by
  induction t with
  | nil => simp [Table.set]
  | cons p t ih =>
    obtain ⟨k', v'⟩ := p
    by_cases h : k' = k
    · simp [Table.set, h]
    · simp [Table.set, h, ih]

theorem Table.get_delete_self {κ ν : Type} [DecidableEq κ] (k : κ) (t : Table κ ν) :
    Table.get k (Table.delete k t) = none := by
  induction t with
  | nil => simp [Table.delete, Table.get]
  | cons p t ih =>
    obtain ⟨k', v'⟩ := p
    by_cases h : k' = k
    · simp [Table.delete, h, ih]
    · simp [Table.delete, Table.get, h, ih]

theorem Table.get_delete_other {κ ν : Type} [DecidableEq κ] (k k2 : κ) (t : Table κ ν)
    (h : k2 ≠ k) : Table.get k2 (Table.delete k t) = Table.get k2 t := by
  induction t with
  | nil => simp [Table.delete]
  | cons p t ih =>
    obtain ⟨k', v'⟩ := p
    by_cases h1 : k' = k
    · subst h1
      have h' : ¬ k' = k2 := fun e => h e.symm
      simp [Table.delete, Table.get, h', ih]
    · by_cases h2 : k' = k2
      · subst h2
        simp [Table.delete, Table.get, h1]
      · simp [Table.delete, Table.get, h1, h2, ih]

theorem Atoi_range (s : Bytes) (n : Int) (h : Atoi s = Except.ok n) :
    -(2 ^ 63 : Int) ≤ n ∧ n < (2 ^ 63 : Int) := by
  unfold Atoi at h
  simp only [] at h
  split_ifs at h
  all_goals (cases h; assumption)

theorem intOfFloat64_range (v : Float64) :
    -(2 ^ 63 : Int) ≤ intOfFloat64 v ∧ intOfFloat64 v < (2 ^ 63 : Int) := by
  unfold intOfFloat64
  simp only []
  split_ifs with h1 h2 h3
  · exact h2
  · constructor <;> norm_num
  · exact h3
  · constructor <;> norm_num

theorem getID_range (id : Iface) :
    -(2 ^ 63 : Int) ≤ (getID id).1 ∧ (getID id).1 < (2 ^ 63 : Int) := by
  cases id with
  | float64 v => exact intOfFloat64_range v
  | string s =>
    simp only [getID]
    cases h : Atoi s with
    | ok n => exact Atoi_range s n h
    | error e => constructor <;> norm_num
  | nil => simp only [getID]; constructor <;> norm_num
  | bool b => simp only [getID]; constructor <;> norm_num
  | composite => simp only [getID]; constructor <;> norm_num

theorem wrap64_succ_ne (n : Int) : wrap64 (n + 1) ≠ n := by
  unfold wrap64
  omega

theorem getID_integer (n : Int) (h1 : -(2 ^ 63 : Int) ≤ n) (h2 : n < (2 ^ 63 : Int)) :
    getID (Iface.float64 { mant := n, exp := 0 }) = (n, true) := by
  have h : intOfFloat64 { mant := n, exp := 0 } = n := by
    unfold intOfFloat64
    simp
    omega
  simp [getID, h]

/-! ## Theorems about the server-to-client pipeline -/

theorem serverStep_not_intercepted (L : Library) (s : State) (body : Bytes) (r : jdtResponse)
    (hdec : L.UnmarshalJdtResponse body = some r) (hcase : NotIntercepted L s.pending r) :
    serverStep L s body = Outcome.done s { stdout := frame body, serverStdin := [], files := [] } := by
  unfold serverStep
  rw [hdec]
  rcases hcase with hid | ⟨hid, hpend, hres⟩
  · simp [hid, forwardToClient]
  · simp only [hid, hpend]
    rcases hres with h | h | h | ⟨first, rest, uri, hd, hp, hs⟩
    · simp [h, forwardToClient]
    · by_cases h0 : r.Result.length = 0 <;> simp [h0, h, forwardToClient]
    · by_cases h0 : r.Result.length = 0 <;> simp [h0, h, forwardToClient]
    · by_cases h0 : r.Result.length = 0 <;> simp [h0, hd, hp, hs, forwardToClient]

theorem serverStep_intercepted (L : Library) (s : State) (body : Bytes) (r : jdtResponse)
    (first : jdtResult) (uri : URL)
    (hdec : L.UnmarshalJdtResponse body = some r) (hcase : Intercepted L s.pending r first uri) :
    serverStep L s body = Outcome.done
      { m := s.m
        pending := Table.set (wrap64 ((getID r.ID).1 + 1))
          { id := (getID r.ID).1, location := first, uri := uri } s.pending }
      { stdout := []
        serverStdin := frame (L.MarshalClassReq (injectedRequest (wrap64 ((getID r.ID).1 + 1)) first.URI))
        files := [] } := by
  obtain ⟨hid, hpend, hres, ⟨rest, hd⟩, hp, hs⟩ := hcase
  unfold serverStep
  rw [hdec]
  simp [hid, hpend, hres, hd, hp, hs]

theorem serverStep_pending (L : Library) (s : State) (body : Bytes) (r : jdtResponse)
    (c : Closure) (hdec : L.UnmarshalJdtResponse body = some r) (hid : (getID r.ID).2 = true)
    (hpend : Table.get (getID r.ID).1 s.pending = some c) :
    serverStep L s body = Outcome.done
      { m := (callback L c s.m r).1, pending := Table.delete (getID r.ID).1 s.pending }
      (callback L c s.m r).2 := by
  unfold serverStep
  rw [hdec]
  simp [hid, hpend]

theorem serverStep_nil (L : Library) (s : State) (body : Bytes)
    (hdec : L.UnmarshalJdtResponse body = none) : serverStep L s body = Outcome.panic := by
  unfold serverStep
  rw [hdec]

theorem clientStep_nil (L : Library) (s : State) (body : Bytes)
    (hdec : L.UnmarshalStdRequest body = none) : clientStep L s body = Outcome.panic := by
  unfold clientStep
  rw [hdec]

theorem rewrittenResponse_eq (c : Closure) :
    rewrittenResponse c =
      { Jsonrpc := ascii "2.0"
        ID := c.id
        Result := [{ TargetURI := targetURI c.uri
                     TargetRange := c.location.Range
                     TargetSelectionRange := c.location.Range }] } := rfl

theorem clientStep_state (L : Library) (s s2 : State) (body : Bytes) (o : Output)
    (h : clientStep L s body = Outcome.done s2 o) : s2 = s := by
  unfold clientStep at h
  split at h
  · cases h
  · split at h <;> (cases h; rfl)

theorem clientStep_rewrite (L : Library) (s : State) (body : Bytes) (req : stdRequest)
    (v : Bytes) (hdec : L.UnmarshalStdRequest body = some req)
    (hget : Table.get req.Params.TextDocument.URI s.m = some v) :
    clientStep L s body = Outcome.done s
      { stdout := []
        serverStdin := frame (L.MarshalStdRequest
          { req with Params := { req.Params with TextDocument := { URI := v } } })
        files := [] } := by
  unfold clientStep
  rw [hdec]
  simp only [hget]

theorem serverStep_table (L : Library) (s s2 : State) (body : Bytes) (o : Output)
    (key val : Bytes) (h : serverStep L s body = Outcome.done s2 o)
    (hget : Table.get key s.m = some val) :
    Table.get key s2.m = some val ∨
      ∃ k c, Table.get k s.pending = some c ∧ targetURI c.uri = key ∧
        Table.get key s2.m = some (L.URLString c.uri) := by
  unfold serverStep at h
  split at h
  · cases h
  · split at h
    · simp only [forwardToClient] at h; cases h; exact Or.inl hget
    · simp only [] at h
      split at h
      · rename_i cb hcb
        cases h
        by_cases hk : targetURI cb.uri = key
        · refine Or.inr ⟨_, cb, hcb, hk, ?_⟩
          simp only [callback]
          rw [← hk]
          exact Table.get_set_self _ _ _
        · left
          simp only [callback]
          rw [Table.get_set_other _ _ _ _ (fun e => hk e.symm)]
          exact hget
      · split at h
        · simp only [forwardToClient] at h; cases h; exact Or.inl hget
        · split at h
          · simp only [forwardToClient] at h; cases h; exact Or.inl hget
          · simp only [forwardToClient] at h; cases h; exact Or.inl hget
          · split at h
            · cases h
            · split at h
              · cases h; exact Or.inl hget
              · simp only [forwardToClient] at h; cases h; exact Or.inl hget

theorem Table.length_set_le {κ ν : Type} [DecidableEq κ] (k : κ) (v : ν) (t : Table κ ν) :
    (Table.set k v t).length ≤ t.length + 1 := by
  induction t with
  | nil => simp [Table.set]
  | cons p t ih =>
    obtain ⟨k', v'⟩ := p
    by_cases h : k' = k
    · simp [Table.set, h]
    · simp [Table.set, h]
      exact ih

theorem step_table (L : Library) (s s2 : State) (e : Event) (o : Output) (key val : Bytes)
    (h : step L s e = Outcome.done s2 o) (hget : Table.get key s.m = some val) :
    Table.get key s2.m = some val ∨
      ∃ k c, Table.get k s.pending = some c ∧ targetURI c.uri = key ∧
        Table.get key s2.m = some (L.URLString c.uri) := by
  cases e with
  | client b =>
    have := clientStep_state L s s2 b o h
    subst this
    exact Or.inl hget
  | server b => exact serverStep_table L s s2 b o key val h hget

theorem run_table (L : Library) (es : List Event) :
    ∀ (s s2 : State) (o : Output) (key val : Bytes), run L s es = Outcome.done s2 o →
      Table.get key s.m = some val →
      Table.get key s2.m = some val ∨
        ∃ u : URL, targetURI u = key ∧ Table.get key s2.m = some (L.URLString u) := by
  induction es with
  | nil =>
    intro s s2 o key val h hget
    simp only [run] at h
    cases h
    exact Or.inl hget
  | cons e es ih =>
    intro s s2 o key val h hget
    simp only [run] at h
    split at h
    · cases h
    · rename_i s1 o1 hstep
      split at h
      · cases h
      · rename_i s3 o3 hrun
        cases h
        rcases step_table L s s1 e o1 key val hstep hget with h1 | ⟨k, c, _, hk, h1⟩
        · exact ih s1 _ o3 key val hrun h1
        · rcases ih s1 _ o3 key _ hrun h1 with h2 | h2
          · exact Or.inr ⟨c.uri, hk, h2⟩
          · exact Or.inr h2

/-! ## Theorems about header blocks -/

theorem readHeaders_fuel (f1 : Nat) :
    ∀ (f2 : Nat) (cl : Int) (r : Bytes), r.length < f1 → r.length < f2 →
      readHeaders f1 cl r = readHeaders f2 cl r := by
  induction f1 with
  | zero => intro f2 cl r h1; omega
  | succ f ih =>
    intro f2 cl r h1 h2
    cases f2 with
    | zero => omega
    | succ g =>
      have hlen := ReadString_rest_lt 10 r
      rw [readHeaders, readHeaders]
      rcases hrs : ReadString 10 r with ⟨line, e, rest⟩
      rw [hrs] at hlen
      cases e with
      | some e => rfl
      | none =>
        have hr := hlen rfl
        simp only at hr
        have hf : rest.length < f := by omega
        have hg : rest.length < g := by omega
        simp only []
        split
        · rfl
        · split
          · split
            · rfl
            · exact ih g _ rest hf hg
          · exact ih g _ rest hf hg

theorem readLSPMessage_fuel (r : Bytes) (k : Nat) :
    readLSPMessage r = readHeaders (r.length + 1 + k) 0 r :=
  readHeaders_fuel _ _ 0 r (by omega) (by omega)

theorem OtherHeader_split {line : Bytes} (h : OtherHeader line) :
    ∃ content, line = content ++ [10] ∧ 10 ∉ content := by
  obtain ⟨h1, h2, _, _⟩ := h
  refine ⟨line.dropLast, ?_, h2⟩
  have hne : line ≠ [] := by
    intro e; rw [e] at h1; simp at h1
  have := List.dropLast_append_getLast hne
  rw [List.getLast?_eq_getLast line hne] at h1
  injection h1 with h1
  rw [h1] at this
  exact this.symm

theorem readHeaders_other (f : Nat) (cl : Int) (line r : Bytes) (h : OtherHeader line) :
    readHeaders (f + 1) cl (line ++ r) = readHeaders f cl r := by
  obtain ⟨content, hline, hc⟩ := OtherHeader_split h
  obtain ⟨_, _, h3, h4⟩ := h
  have hrs : ReadString 10 (line ++ r) = (line, none, r) := by
    rw [hline, List.append_assoc]
    exact ReadString_append 10 content r hc
  rw [readHeaders, hrs]
  simp only [h3, if_false, h4, Bool.false_eq_true]

theorem readHeaders_others (lines : List Bytes) :
    ∀ (f : Nat) (cl : Int) (r : Bytes), (∀ l ∈ lines, OtherHeader l) →
      readHeaders (f + lines.length) cl (joinLines lines ++ r) = readHeaders f cl r := by
  induction lines with
  | nil => intro f cl r _; rfl
  | cons l ls ih =>
    intro f cl r h
    have hl := h l (by simp)
    have hls : ∀ x ∈ ls, OtherHeader x := fun x hx => h x (by simp [hx])
    simp only [joinLines, List.length_cons, List.append_assoc]
    rw [show f + (ls.length + 1) = (f + ls.length) + 1 by omega, readHeaders_other _ _ _ _ hl]
    exact ih f cl r hls

theorem readHeaders_crlf (f : Nat) (cl : Int) (r : Bytes) :
    readHeaders (f + 1) cl (crlf ++ r) = readBody cl r := by
  have hrs : ReadString 10 (crlf ++ r) = (crlf, none, r) := by
    have := ReadString_append 10 [13] r (by simp)
    simpa [crlf] using this
  rw [readHeaders, hrs]
  simp

theorem TrimSpace_spaces (k : Nat) (s : Bytes) :
    TrimSpace (List.replicate k 32 ++ s) = TrimSpace s := by
  induction k with
  | zero => rfl
  | succ k ih =>
    rw [List.replicate_succ, List.cons_append, TrimSpace_space 32 _ (by omega) (by decide)]
    exact ih

theorem TrimSpace_digits (ds : Bytes) (hne : ds ≠ []) (hd : ∀ c ∈ ds, isDigit c = true) :
    TrimSpace (ds ++ [13, 10]) = ds := by
  have h := TrimSpace_header_value ds hne hd
  rw [TrimSpace_space 32 _ (by omega) (by decide)] at h
  exact h

theorem readHeaders_length (f : Nat) (cl : Int) (k n : Nat) (r : Bytes) (hn : n < 2 ^ 63) :
    readHeaders (f + 1) cl (lengthHeader k n ++ r) = readHeaders f (n : Int) r := by
  have hmem : 10 ∉ contentLengthKey ++ List.replicate k 32 ++ decimal n ++ [13] := by
    intro h
    simp [contentLengthKey_eq] at h
    have := isDigit_bounds (decimal_digits n 10 h)
    omega
  have hshape : lengthHeader k n ++ r
      = (contentLengthKey ++ List.replicate k 32 ++ decimal n ++ [13]) ++ 10 :: r := by
    simp [lengthHeader, crlf]
  have hrs := ReadString_append 10 _ r hmem
  rw [readHeaders, hshape, hrs]
  have hline : (contentLengthKey ++ List.replicate k 32 ++ decimal n ++ [13]) ++ [10] ≠ crlf := by
    simp [contentLengthKey_eq, crlf]
  have hpre : HasPrefix ((contentLengthKey ++ List.replicate k 32 ++ decimal n ++ [13]) ++ [10])
      contentLengthKey = true := by
    simp [HasPrefix, List.append_assoc]
  have hdrop : ((contentLengthKey ++ List.replicate k 32 ++ decimal n ++ [13]) ++ [10]).drop
      contentLengthKey.length = List.replicate k 32 ++ (decimal n ++ [13, 10]) := by
    simp [List.append_assoc]
  simp only [hline, if_false, hpre, if_true, hdrop]
  rw [TrimSpace_spaces, TrimSpace_digits _ (decimal_ne_nil _) (decimal_digits _),
    Atoi_decimal _ hn]

theorem readLSPMessage_block (before after : List Bytes) (k n : Nat) (r : Bytes)
    (hb : ∀ l ∈ before, OtherHeader l) (ha : ∀ l ∈ after, OtherHeader l) (hn : n < 2 ^ 63) :
    readLSPMessage (headerBlock before k n after ++ r) = readBody (n : Int) r := by
  rw [readLSPMessage_fuel _ (before.length + after.length + 2)]
  generalize (headerBlock before k n after ++ r).length = len
  have hfuel : len + 1 + (before.length + after.length + 2)
      = ((len + 1 + 1 + after.length) + 1) + before.length := by omega
  rw [hfuel]
  simp only [headerBlock, List.append_assoc]
  rw [readHeaders_others before _ _ _ hb, readHeaders_length _ _ _ _ _ hn,
    readHeaders_others after _ _ _ ha, readHeaders_crlf]

/-! ## A response for which no continuation is pending -/

theorem serverStep_no_continuation (L : Library) (s s2 : State) (body : Bytes) (r : jdtResponse)
    (o : Output) (hdec : L.UnmarshalJdtResponse body = some r)
    (hpend : (getID r.ID).2 = true → Table.get (getID r.ID).1 s.pending = none)
    (h : serverStep L s body = Outcome.done s2 o) :
    s2.m = s.m ∧ o.files = [] ∧ (o.stdout = frame body ∨ o.stdout = []) := by
  unfold serverStep at h
  rw [hdec] at h
  simp only [] at h
  split at h
  · simp only [forwardToClient] at h; cases h; exact ⟨rfl, rfl, Or.inl rfl⟩
  · rename_i hid
    have hid' : (getID r.ID).2 = true := by simpa using hid
    rw [hpend hid'] at h
    simp only [] at h
    split at h
    · simp only [forwardToClient] at h; cases h; exact ⟨rfl, rfl, Or.inl rfl⟩
    · split at h
      · simp only [forwardToClient] at h; cases h; exact ⟨rfl, rfl, Or.inl rfl⟩
      · simp only [forwardToClient] at h; cases h; exact ⟨rfl, rfl, Or.inl rfl⟩
      · split at h
        · cases h
        · split at h
          · cases h; exact ⟨rfl, rfl, Or.inr rfl⟩
          · simp only [forwardToClient] at h; cases h; exact ⟨rfl, rfl, Or.inl rfl⟩


/-! ## Theorems about ids, suffixes and replacement -/

theorem Atoi_encodeInt (n : Int) (h1 : -(2 ^ 63 : Int) ≤ n) (h2 : n < (2 ^ 63 : Int)) :
    Atoi (encodeInt n) = Except.ok n := by
  by_cases hneg : n < 0
  · have hall : (decimal n.natAbs).all isDigit = true := by
      rw [List.all_eq_true]; exact decimal_digits _
    have henc : encodeInt n = 45 :: decimal n.natAbs := by simp [encodeInt, hneg]
    rw [henc]
    unfold Atoi
    simp only [List.head?_cons, true_or, if_true, List.tail_cons, decimal_ne_nil, hall,
      digitsVal_decimal]
    simp only [Int.natCast_natAbs, abs_of_neg hneg, neg_neg]
    rw [if_neg (by simp), if_pos ⟨h1, h2⟩]
  · have henc : encodeInt n = decimal n.natAbs := by simp [encodeInt, hneg]
    rw [henc, Atoi_decimal _ (by omega)]
    congr 1
    omega

theorem getID_string_integer (n : Int) (h1 : -(2 ^ 63 : Int) ≤ n) (h2 : n < (2 ^ 63 : Int)) :
    getID (Iface.string (encodeInt n)) = (n, true) := by
  simp [getID, Atoi_encodeInt n h1 h2]

theorem ReplaceAll_absent (old new : Bytes) : ∀ (s : Bytes), occursIn old s = false →
    ReplaceAll old new 0 s = s := by
  intro s
  induction s with
  | nil => intro _; rfl
  | cons c t ih =>
    intro h
    simp only [occursIn, Bool.or_eq_false_iff] at h
    simp only [ReplaceAll, h.1, Bool.false_eq_true, if_false, ih h.2]

theorem serverStep_parse_error (L : Library) (s : State) (body : Bytes) (r : jdtResponse)
    (first : jdtResult) (rest : List jdtResult)
    (hdec : L.UnmarshalJdtResponse body = some r) (hid : (getID r.ID).2 = true)
    (hpend : Table.get (getID r.ID).1 s.pending = none) (hres : r.Result.length ≠ 0)
    (hlist : L.UnmarshalDefinitionResult r.Result = some (first :: rest))
    (hparse : L.Parse first.URI = none) :
    serverStep L s body = Outcome.panic := by
  unfold serverStep
  rw [hdec]
  simp [hid, hpend, hres, hlist, hparse]

theorem readBody_full (body rest : Bytes) (hn : body.length ≤ maxAlloc) :
    readBody (body.length : Int) (body ++ rest) = ReadResult.ok body rest := by
  have h1 : ¬ ((body.length : Int) < 0 ∨ (maxAlloc : Int) < (body.length : Int)) := by omega
  unfold readBody ReadFull
  simp only [h1, if_false, Int.toNat_ofNat]
  simp

theorem CaseVariant_other (key value : Bytes) (hkey : CaseVariant key)
    (hne : key ≠ ascii "Content-Length") (hv : 10 ∉ value) :
    OtherHeader (key ++ 58 :: (value ++ crlf)) := by
  have hlen : key.length = 14 := by
    have h := congrArg List.length hkey
    simp only [toLowerASCII, List.length_map] at h
    rw [h]; decide
  have h10 : 10 ∉ key := by
    intro hmem
    have h : 10 ∈ toLowerASCII key := by
      unfold toLowerASCII
      exact List.mem_map.mpr ⟨10, hmem, by decide⟩
    rw [hkey] at h
    exact absurd h (by decide)
  have hshape : key ++ 58 :: (value ++ crlf) = (key ++ 58 :: (value ++ [13])) ++ [10] := by
    simp [crlf]
  refine ⟨?_, ?_, ?_, ?_⟩
  · rw [hshape, List.getLast?_concat]
  · rw [hshape, List.dropLast_concat]
    simp [h10, hv]
  · intro h
    have h2 := congrArg List.length h
    simp [crlf, hlen] at h2
    omega
  · cases hp : HasPrefix (key ++ 58 :: (value ++ crlf)) contentLengthKey with
    | false => rfl
    | true =>
      exfalso
      unfold HasPrefix at hp
      rw [List.isPrefixOf_iff_prefix] at hp
      obtain ⟨t, ht⟩ := hp
      have hk : contentLengthKey = ascii "Content-Length" ++ [58] := by decide
      rw [hk, List.append_assoc] at ht
      have := (List.append_inj ht (by rw [hlen]; decide)).1
      exact hne this.symm

/-! ## A pending continuation stays until a response with its id arrives -/

theorem serverStep_keeps_pending (L : Library) (s s2 : State) (body : Bytes) (o : Output)
    (k : Int) (c : Closure) (h : serverStep L s body = Outcome.done s2 o)
    (hk : answers L k (Event.server body) = false)
    (hget : Table.get k s.pending = some c) :
    ∃ c2, Table.get k s2.pending = some c2 := by
  unfold serverStep at h
  split at h
  · cases h
  · rename_i r hdec
    simp only [answers, hdec, decide_eq_false_iff_not] at hk
    split at h
    · simp only [forwardToClient] at h; cases h; exact ⟨c, hget⟩
    · rename_i hid
      have hid' : (getID r.ID).2 = true := by simpa using hid
      have hne : k ≠ (getID r.ID).1 := by
        intro e
        apply hk
        rw [e]
        exact Prod.ext rfl hid'
      simp only [] at h
      split at h
      · cases h
        exact ⟨c, by rw [Table.get_delete_other _ _ _ hne]; exact hget⟩
      · split at h
        · simp only [forwardToClient] at h; cases h; exact ⟨c, hget⟩
        · split at h
          · simp only [forwardToClient] at h; cases h; exact ⟨c, hget⟩
          · simp only [forwardToClient] at h; cases h; exact ⟨c, hget⟩
          · split at h
            · cases h
            · split at h
              · cases h
                by_cases hnew : k = wrap64 ((getID r.ID).1 + 1)
                · exact ⟨_, by rw [hnew]; exact Table.get_set_self _ _ _⟩
                · exact ⟨c, by rw [Table.get_set_other _ _ _ _ hnew]; exact hget⟩
              · simp only [forwardToClient] at h; cases h; exact ⟨c, hget⟩

theorem step_keeps_pending (L : Library) (s s2 : State) (e : Event) (o : Output)
    (k : Int) (c : Closure) (h : step L s e = Outcome.done s2 o)
    (hk : answers L k e = false) (hget : Table.get k s.pending = some c) :
    ∃ c2, Table.get k s2.pending = some c2 := by
  cases e with
  | client b =>
    have := clientStep_state L s s2 b o h
    subst this
    exact ⟨c, hget⟩
  | server b => exact serverStep_keeps_pending L s s2 b o k c h hk hget

theorem run_keeps_pending (L : Library) (k : Int) (es : List Event) :
    ∀ (s s2 : State) (o : Output) (c : Closure), run L s es = Outcome.done s2 o →
      (∀ e ∈ es, answers L k e = false) → Table.get k s.pending = some c →
      ∃ c2, Table.get k s2.pending = some c2 := by
  induction es with
  | nil =>
    intro s s2 o c h _ hget
    simp only [run] at h
    cases h
    exact ⟨c, hget⟩
  | cons e es ih =>
    intro s s2 o c h hk hget
    simp only [run] at h
    split at h
    · cases h
    · rename_i s1 o1 hstep
      split at h
      · cases h
      · rename_i s3 o3 hrun
        cases h
        obtain ⟨c1, hc1⟩ := step_keeps_pending L s s1 e o1 k c hstep (hk e (by simp)) hget
        exact ih s1 _ o3 c1 hrun (fun x hx => hk x (by simp [hx])) hc1

/-! ## The claims about the pipelines -/

/-- C2 (verbatim passthrough, server to client). For every server payload that decodes to
an envelope and is not intercepted (its id is absent or cannot be resolved; or its id is
resolved, nothing is pending for it, and its result is empty, does not decode as a list of
locations, is an empty list, or has a first location whose URI has a scheme other than
`jdt`), one iteration of the server-to-client loop writes to the client exactly one frame
whose payload is the received payload byte for byte, writes nothing to the server, and
leaves the table of continuations and the URI rewrite table as they were. -/
theorem C2_verbatim_passthrough (L : Library) (s : State) (body : Bytes) (r : jdtResponse)
    (hdec : L.UnmarshalJdtResponse body = some r) (hcase : NotIntercepted L s.pending r) :
    serverStep L s body = Outcome.done s { stdout := frame body, serverStdin := [], files := [] } := by
  unfold serverStep
  rw [hdec]
  rcases hcase with hid | ⟨hid, hpend, hres⟩
  · simp [hid, forwardToClient]
  · simp only [hid, hpend]
    rcases hres with h | h | h | ⟨first, rest, uri, hd, hp, hs⟩
    · simp [h, forwardToClient]
    · by_cases h0 : r.Result.length = 0 <;> simp [h0, h, forwardToClient]
    · by_cases h0 : r.Result.length = 0 <;> simp [h0, h, forwardToClient]
    · by_cases h0 : r.Result.length = 0 <;> simp [h0, hd, hp, hs, forwardToClient]

set_option maxRecDepth 1000000 in
/-- Witness for C2: a notification (no id) arriving at the start, and a definition answer
that points into an ordinary file arriving while a continuation is pending for id 6. -/
theorem C2_verbatim_passthrough_witness :
    serverStep golib State.init exNotification
        = Outcome.done State.init { stdout := frame exNotification, serverStdin := [], files := [] } ∧
      serverStep golib exPending exDefinitionFile
        = Outcome.done exPending { stdout := frame exDefinitionFile, serverStdin := [], files := [] } :=
  ⟨C2_verbatim_passthrough golib State.init exNotification
      { Jsonrpc := ascii "2.0", ID := Iface.nil, Result := [] } (by decide) (Or.inl (by decide)),
    C2_verbatim_passthrough golib exPending exDefinitionFile
      { Jsonrpc := ascii "2.0", ID := Iface.float64 { mant := 7, exp := 0 },
        Result := exLocationsFile }
      (by decide)
      (Or.inr ⟨by decide, by decide, Or.inr (Or.inr (Or.inr
        ⟨{ URI := ascii "file:///home/u/Bar.java", Range := exRange }, [], exFileURL,
          by decide, by decide, by decide⟩))⟩)⟩

set_option maxRecDepth 1000000 in
/-- Counterexample to C4 as stated: the server reports the location with the URI
`JDT://contents/pkg/Foo.class`. After the file is written, the client's request inside
`file:///tmp/pkg/Foo.java` is forwarded with the URI `jdt://contents/pkg/Foo.class`, which
is not the string the server reported. -/
theorem C4_reported_uri_counterexample :
    run golib State.init
        [Event.server exDefinitionUpper, Event.server exContents, Event.client exClientRequest]
      = Outcome.done exMaterialized
          { stdout := frame exRewritten
            serverStdin := frame exClassReqUpper ++ frame exClientForwarded
            files := exFiles (ascii "class Foo \x7b\x7d\n") } ∧
      (golib.UnmarshalDefinitionResult exLocationsUpper).map (fun l => l.map (fun d => d.URI))
        = some [ascii "JDT://contents/pkg/Foo.class"] ∧
      (golib.UnmarshalStdRequest exClientForwarded).map (fun q => q.Params.TextDocument.URI)
        = some (ascii "jdt://contents/pkg/Foo.class") ∧
      ascii "jdt://contents/pkg/Foo.class" ≠ ascii "JDT://contents/pkg/Foo.class" := by
  decide

/-- C4 as amended (reverse URI translation). When the continuation for a virtual URI runs,
the URI rewrite table binds the local file URI to the text that the method `String` gives
for the parsed virtual URI (not necessarily the text the server reported). A client
request whose `params.textDocument.uri` is a key of the table is forwarded to the server
as the re-encoded request with that URI replaced by the table's value, and the tables are
left as they were. An entry of the table stays as it is through every later iteration of
either loop, except an iteration that runs a pending continuation with the same local
file URI, which binds the key to the text of that continuation's URI; so after any
sequence of iterations the key is bound to its old value or to the text of a URI with
that local file URI. -/
theorem C4_reverse_translation (L : Library) (s : State) (body : Bytes) (resp : jdtResponse)
    (c : Closure) (t : State) (reqBody : Bytes) (req : stdRequest) (v : Bytes)
    (hdec : L.UnmarshalJdtResponse body = some resp) (hid : (getID resp.ID).2 = true)
    (hpend : Table.get (getID resp.ID).1 s.pending = some c)
    (hreq : L.UnmarshalStdRequest reqBody = some req)
    (hget : Table.get req.Params.TextDocument.URI t.m = some v) :
    (∃ s1 o1, serverStep L s body = Outcome.done s1 o1 ∧
      Table.get (targetURI c.uri) s1.m = some (L.URLString c.uri)) ∧
    clientStep L t reqBody = Outcome.done t
      { stdout := []
        serverStdin := frame (L.MarshalStdRequest
          { req with Params := { req.Params with TextDocument := { URI := v } } })
        files := [] } ∧
    (∀ (e : Event) (t2 : State) (o : Output) (key val : Bytes),
      step L t e = Outcome.done t2 o → Table.get key t.m = some val →
        Table.get key t2.m = some val ∨
          ∃ k c2, Table.get k t.pending = some c2 ∧ targetURI c2.uri = key ∧
            Table.get key t2.m = some (L.URLString c2.uri)) ∧
    (∀ (es : List Event) (t2 : State) (o : Output) (key val : Bytes),
      run L t es = Outcome.done t2 o → Table.get key t.m = some val →
        Table.get key t2.m = some val ∨
          ∃ u : URL, targetURI u = key ∧ Table.get key t2.m = some (L.URLString u)) := by
  refine ⟨?_, clientStep_rewrite L t reqBody req v hreq hget, ?_, ?_⟩
  · refine ⟨_, _, serverStep_pending L s body resp c hdec hid hpend, ?_⟩
    simp only [callback]
    exact Table.get_set_self _ _ _
  · intro e t2 o key val hstep hkey
    exact step_table L t t2 e o key val hstep hkey
  · intro es t2 o key val hrun hkey
    exact run_table L es t t2 o key val hrun hkey

set_option maxRecDepth 1000000 in
/-- Witness for C4: the contents of `pkg/Foo.class` arrive while its continuation is
pending, and the client then sends a request inside `file:///tmp/pkg/Foo.java`. -/
theorem C4_reverse_translation_witness :
    (∃ s1 o1, serverStep golib exPending exContents = Outcome.done s1 o1 ∧
      Table.get (targetURI exURL) s1.m = some (ascii "jdt://contents/pkg/Foo.class")) ∧
    clientStep golib exMaterialized exClientRequest = Outcome.done exMaterialized
      { stdout := [], serverStdin := frame exClientForwarded, files := [] } :=
  have h := C4_reverse_translation golib exPending exContents
    { Jsonrpc := ascii "2.0", ID := Iface.float64 { mant := 6, exp := 0 },
      Result := ascii "\"class Foo \x7b\x7d\\n\"" }
    exClosure exMaterialized exClientRequest
    { Jsonrpc := ascii "2.0", Method := ascii "textDocument/definition",
      Params := { Position := { Line := 1, Character := 2 },
                  TextDocument := { URI := ascii "file:///tmp/pkg/Foo.java" } },
      ID := ascii "8" }
    (ascii "jdt://contents/pkg/Foo.class")
    (by decide) (by decide) (by decide) (by decide) (by decide)
  ⟨h.1, h.2.1⟩

set_option maxRecDepth 1000000 in
/-- Counterexample to C5 as stated: the client has the requests 5 and 6 outstanding. The
server's definition answer to request 5 is intercepted and the injected request gets the
id 6. The server's answer to the client's request 6 then finds the pending entry: it is
not forwarded, the continuation takes it for the contents of the class file (an empty
file is written) and answers request 5. -/
theorem C5_id_collision_counterexample :
    serverStep golib State.init exDefinition
        = Outcome.done exPending { stdout := [], serverStdin := frame exClassReq, files := [] } ∧
      (golib.UnmarshalJdtResponse exHover).map (fun r => getID r.ID) = some (6, true) ∧
      Table.get 6 exPending.pending = some exClosure ∧
      serverStep golib exPending exHover
        = Outcome.done exMaterialized
            { stdout := frame exRewritten, serverStdin := [], files := exFiles [] } ∧
      frame exRewritten ≠ frame exHover := by
  decide

/-- C5 as amended (the id of the injected request). When a definition response is
intercepted, the id of the injected request, which is also the key of the new pending
entry, is the id of the intercepted response plus one (wrapping at the range of `int`).
It differs from the id of the intercepted response, and the pending entries of all other
ids are as before. It is not kept apart from the other ids the client uses: an entry
stays pending at that id through every sequence of frames none of which is a server
response whose id resolves to it, and the first server response whose id does resolve to
it, whatever request it answers, is consumed by the continuation stored there instead of
being forwarded. That removes the entry, so a further response with that id runs no
continuation (the URI rewrite table is unchanged and no file is written). -/
theorem C5_synthetic_id (L : Library) (s : State) (body : Bytes) (r : jdtResponse)
    (first : jdtResult) (uri : URL)
    (hdec : L.UnmarshalJdtResponse body = some r) (hint : Intercepted L s.pending r first uri) :
    ∃ s1 c, serverStep L s body = Outcome.done s1
        { stdout := []
          serverStdin := frame (L.MarshalClassReq (injectedRequest (wrap64 ((getID r.ID).1 + 1)) first.URI))
          files := [] } ∧
      s1.m = s.m ∧
      Table.get (wrap64 ((getID r.ID).1 + 1)) s1.pending = some c ∧
      wrap64 ((getID r.ID).1 + 1) ≠ (getID r.ID).1 ∧
      (∀ k, k ≠ wrap64 ((getID r.ID).1 + 1) → Table.get k s1.pending = Table.get k s.pending) ∧
      (∀ body2 r2, L.UnmarshalJdtResponse body2 = some r2 →
        getID r2.ID = (wrap64 ((getID r.ID).1 + 1), true) →
        serverStep L s1 body2 = Outcome.done
          { m := (callback L c s1.m r2).1
            pending := Table.delete (wrap64 ((getID r.ID).1 + 1)) s1.pending }
          (callback L c s1.m r2).2) ∧
      (∀ (es : List Event) (s2 : State) (o : Output),
        (∀ e ∈ es, answers L (wrap64 ((getID r.ID).1 + 1)) e = false) →
        run L s1 es = Outcome.done s2 o →
        ∃ c2, Table.get (wrap64 ((getID r.ID).1 + 1)) s2.pending = some c2 ∧
          ∀ body2 r2, L.UnmarshalJdtResponse body2 = some r2 →
            getID r2.ID = (wrap64 ((getID r.ID).1 + 1), true) →
            serverStep L s2 body2 = Outcome.done
                { m := (callback L c2 s2.m r2).1
                  pending := Table.delete (wrap64 ((getID r.ID).1 + 1)) s2.pending }
                (callback L c2 s2.m r2).2 ∧
              Table.get (wrap64 ((getID r.ID).1 + 1))
                (Table.delete (wrap64 ((getID r.ID).1 + 1)) s2.pending) = none ∧
              ∀ (body3 : Bytes) (r3 : jdtResponse) (s3 : State) (o3 : Output),
                L.UnmarshalJdtResponse body3 = some r3 →
                getID r3.ID = (wrap64 ((getID r.ID).1 + 1), true) →
                serverStep L
                  { m := (callback L c2 s2.m r2).1
                    pending := Table.delete (wrap64 ((getID r.ID).1 + 1)) s2.pending }
                  body3 = Outcome.done s3 o3 →
                s3.m = (callback L c2 s2.m r2).1 ∧ o3.files = [] ∧
                  (o3.stdout = frame body3 ∨ o3.stdout = [])) := by
  refine ⟨_, { id := (getID r.ID).1, location := first, uri := uri },
    serverStep_intercepted L s body r first uri hdec hint, rfl,
    Table.get_set_self _ _ _, wrap64_succ_ne _, ?_, ?_, ?_⟩
  · intro k hk
    exact Table.get_set_other _ _ _ _ hk
  · intro body2 r2 hdec2 hid2
    have h := serverStep_pending L
      { m := s.m
        pending := Table.set (wrap64 ((getID r.ID).1 + 1))
          { id := (getID r.ID).1, location := first, uri := uri } s.pending }
      body2 r2 { id := (getID r.ID).1, location := first, uri := uri } hdec2
      (by rw [hid2]) (by rw [hid2]; exact Table.get_set_self _ _ _)
    rw [hid2] at h
    exact h
  · intro es s2 o hes hrun
    obtain ⟨c2, hc2⟩ := run_keeps_pending L _ es _ s2 o _ hrun hes (Table.get_set_self _ _ _)
    refine ⟨c2, hc2, ?_⟩
    intro body2 r2 hdec2 hid2
    have h := serverStep_pending L s2 body2 r2 c2 hdec2 (by rw [hid2]) (by rw [hid2]; exact hc2)
    rw [hid2] at h
    refine ⟨h, Table.get_delete_self _ _, ?_⟩
    intro body3 r3 s3 o3 hdec3 hid3 hstep3
    exact serverStep_no_continuation L _ s3 body3 r3 o3 hdec3
      (fun _ => by rw [hid3]; exact Table.get_delete_self _ _) hstep3

set_option maxRecDepth 1000000 in
/-- Witness for C5: the definition answer with id 5 arrives at the start and the injected
request gets the id 6. The answer to the client's request 9 and a request of the client
pass, the entry stays; the answer to the client's request 6 is then consumed by the
continuation, and the client is sent the rewritten answer to request 5. -/
theorem C5_synthetic_id_witness :
    serverStep golib State.init exDefinition
        = Outcome.done exPending { stdout := [], serverStdin := frame exClassReq, files := [] } ∧
      run golib exPending [Event.server exHover9, Event.client exOtherRequest]
        = Outcome.done exPending
            { stdout := frame exHover9, serverStdin := frame exOtherRequest, files := [] } ∧
      serverStep golib exPending exHover
        = Outcome.done exMaterialized
            { stdout := frame exRewritten, serverStdin := [], files := exFiles [] } := by
  obtain ⟨s1, c, h1, -, -, -, -, -, h7⟩ := C5_synthetic_id golib State.init exDefinition
    { Jsonrpc := ascii "2.0", ID := Iface.float64 { mant := 5, exp := 0 }, Result := exLocations }
    exLocation exURL (by decide)
    ⟨by decide, by decide, by decide, ⟨[], by decide⟩, by decide, by decide⟩
  have hs : serverStep golib State.init exDefinition
      = Outcome.done exPending { stdout := [], serverStdin := frame exClassReq, files := [] } := by
    decide
  have hs1 : s1 = exPending := by
    rw [hs] at h1
    injection h1 with e _
    exact e.symm
  subst hs1
  have hrun : run golib exPending [Event.server exHover9, Event.client exOtherRequest]
      = Outcome.done exPending
          { stdout := frame exHover9, serverStdin := frame exOtherRequest, files := [] } := by
    decide
  obtain ⟨c2, hc2, h8⟩ := h7 _ _ _ (by decide) hrun
  have hc : c2 = exClosure := by
    have hg : Table.get (wrap64 ((getID (Iface.float64 { mant := 5, exp := 0 })).1 + 1))
        exPending.pending = some exClosure := by decide
    rw [hg] at hc2
    injection hc2 with e
    exact e.symm
  subst hc
  exact ⟨hs, hrun, (h8 exHover
    { Jsonrpc := ascii "2.0", ID := Iface.float64 { mant := 6, exp := 0 },
      Result := ascii "\x7b\"contents\":\"doc\"\x7d" } (by decide) (by decide)).1⟩

set_option maxRecDepth 1000000 in
/-- C7 fails on the code: for the payload `null` and for a payload that is not JSON,
`json.Unmarshal` leaves the pointer nil, and the next statement of either loop
dereferences it. Both iterations end in a panic and nothing is forwarded. -/
theorem C7_bad_payload_panics :
    golib.UnmarshalJdtResponse (ascii "null") = none ∧
      golib.UnmarshalStdRequest (ascii "null") = none ∧
      serverStep golib State.init (ascii "null") = Outcome.panic ∧
      clientStep golib State.init (ascii "null") = Outcome.panic ∧
      serverStep golib State.init (ascii "not json") = Outcome.panic ∧
      clientStep golib State.init (ascii "not json") = Outcome.panic := by
  decide

set_option maxRecDepth 1000000 in
/-- Counterexample to C8 as stated: the result of the response to the injected request is
the JSON string `"a\/b"`, which `strconv.Unquote` rejects. The continuation writes an
empty file and sends the client the same success response as for a result it can decode;
the response has no error member. -/
theorem C8_unquote_failure_counterexample :
    golib.Unquote (ascii "\"a\\/b\"") = none ∧
      (golib.UnmarshalJdtResponse exContentsBadEscape).map (fun r => r.Result)
        = some (ascii "\"a\\/b\"") ∧
      serverStep golib exPending exContentsBadEscape
        = Outcome.done exMaterialized
            { stdout := frame exRewritten, serverStdin := [], files := exFiles [] } := by
  decide

/-- C8 as amended (a result that does not decode). Whenever the result of the response
that reaches a pending continuation does not decode as a quoted string, the continuation
goes on with the empty text: it binds the local file URI in the URI rewrite table, creates
the directory, writes an empty file, and writes to the client the success response for the
original request id with the single location in the local file. No error response is
written. -/
theorem C8_unquote_failure (L : Library) (s : State) (body : Bytes) (resp : jdtResponse)
    (c : Closure) (data : Bytes)
    (hdec : L.UnmarshalJdtResponse body = some resp) (hid : (getID resp.ID).2 = true)
    (hpend : Table.get (getID resp.ID).1 s.pending = some c)
    (hunq : L.Unquote resp.Result = none)
    (hdata : L.MarshalStdResponse
      { Jsonrpc := ascii "2.0"
        ID := c.id
        Result := [{ TargetURI := targetURI c.uri
                     TargetRange := c.location.Range
                     TargetSelectionRange := c.location.Range }] } = some data) :
    serverStep L s body = Outcome.done
      { m := Table.set (targetURI c.uri) (L.URLString c.uri) s.m
        pending := Table.delete (getID resp.ID).1 s.pending }
      { stdout := frame data
        serverStdin := []
        files := [FileOp.MkdirAll (L.Dir (tmpFileName c.uri)) 0o755,
                  FileOp.WriteFile (tmpFileName c.uri) [] 0o400] } := by
  rw [serverStep_pending L s body resp c hdec hid hpend]
  simp only [callback, rewrittenResponse_eq, hdata, fileContent, hunq, ReplaceAll]

set_option maxRecDepth 1000000 in
/-- Witness for C8: the response with the result `"a\/b"` arrives while the continuation
for `pkg/Foo.class` is pending. -/
theorem C8_unquote_failure_witness :
    serverStep golib exPending exContentsBadEscape
      = Outcome.done exMaterialized
          { stdout := frame exRewritten, serverStdin := [], files := exFiles [] } :=
  C8_unquote_failure golib exPending exContentsBadEscape
    { Jsonrpc := ascii "2.0", ID := Iface.float64 { mant := 6, exp := 0 },
      Result := ascii "\"a\\/b\"" }
    exClosure exRewritten (by decide) (by decide) (by decide) (by decide) (by decide)

/-- C9 fails on the code: a negative length makes `make([]byte, contentLength)` panic, and
without a length header (no header at all, another header, or the key in another case)
`contentLength` keeps its initial value 0 and an empty body is returned with no error.
Only a value that is not an integer is reported as an error. -/
theorem C9_header_validation_fails :
    readLSPMessage (ascii "Content-Length: -1\r\n\r\n") = ReadResult.panic ∧
      readLSPMessage (ascii "\r\nabc") = ReadResult.ok [] (ascii "abc") ∧
      readLSPMessage (ascii "Content-Type: text\r\n\r\nabc") = ReadResult.ok [] (ascii "abc") ∧
      readLSPMessage (ascii "Content-Length: abc\r\n\r\nabc")
        = ReadResult.error Error.NumError (ascii "\r\nabc") := by
  decide

/-- C10 (materialization is idempotent). When the continuation runs twice for the same
virtual URI, both runs derive the same local file path and the same local file URI, write
to that same path, and the URI rewrite table after the second run is the table after the
first run: the entry is bound again to the same value and no entry is added. -/
theorem C10_materialization_idempotent (L : Library) (m : Table Bytes Bytes) (u : Bytes)
    (c1 c2 : Closure) (resp1 resp2 : jdtResponse)
    (h1 : L.Parse u = some c1.uri) (h2 : L.Parse u = some c2.uri) :
    tmpFileName c2.uri = tmpFileName c1.uri ∧ targetURI c2.uri = targetURI c1.uri ∧
      (rewrittenResponse c2).Result.map (fun l => l.TargetURI)
        = (rewrittenResponse c1).Result.map (fun l => l.TargetURI) ∧
      (callback L c2 (callback L c1 m resp1).1 resp2).2.files
        = [FileOp.MkdirAll (L.Dir (tmpFileName c1.uri)) 0o755,
           FileOp.WriteFile (tmpFileName c1.uri) (fileContent L resp2) 0o400] ∧
      (callback L c2 (callback L c1 m resp1).1 resp2).1 = (callback L c1 m resp1).1 ∧
      Table.get (targetURI c1.uri) (callback L c1 m resp1).1 = some (L.URLString c1.uri) ∧
      ((callback L c1 m resp1).1).length ≤ m.length + 1 := by
  have hu : c2.uri = c1.uri := by
    have := h1.symm.trans h2
    injection this with h
    exact h.symm
  refine ⟨by rw [hu], by rw [hu], ?_, ?_, ?_, ?_, ?_⟩
  · simp only [rewrittenResponse_eq, hu, List.map_cons, List.map_nil]
  · simp only [callback, hu]
  · simp only [callback, hu]
    exact Table.set_set_self _ _ _
  · simp only [callback]
    exact Table.get_set_self _ _ _
  · simp only [callback]
    exact Table.length_set_le _ _ _

set_option maxRecDepth 1000000 in
/-- Witness for C10: two definition requests into `jdt://contents/pkg/Foo.class`, with the
ids 5 and 11; both continuations write `/tmp/pkg/Foo.java`. -/
theorem C10_materialization_idempotent_witness :
    tmpFileName exURL = ascii "/tmp/pkg/Foo.java" ∧
      targetURI exURL = ascii "file:///tmp/pkg/Foo.java" ∧
      (callback golib { id := 11, location := exLocation, uri := exURL }
          (callback golib exClosure [] jdtResponse.zero).1 jdtResponse.zero).1
        = (callback golib exClosure [] jdtResponse.zero).1 ∧
      (callback golib exClosure [] jdtResponse.zero).1 = exMaterialized.m :=
  have h := C10_materialization_idempotent golib [] (ascii "jdt://contents/pkg/Foo.class")
    exClosure { id := 11, location := exLocation, uri := exURL }
    jdtResponse.zero jdtResponse.zero (by decide) (by decide)
  ⟨by decide, by decide, h.2.2.2.2.1, by decide⟩

/-! ## The claims C11 to C19 -/

set_option maxRecDepth 1000000 in
/-- Counterexample to C12 as stated: for the integer 2^63 the string that holds its
decimal representation gives `(0, false)`, and the number gives the smallest `int`; and
for the integer 9007199254740993 = 2^53 + 1 the number decodes to the `float64` 2^53, so
the numeric id gives 9007199254740992 while the string id gives 9007199254740993. -/
theorem C12_large_id_counterexample :
    encodeInt 9223372036854775808 = ascii "9223372036854775808" ∧
    getID (Iface.string (ascii "9223372036854775808")) = (0, false) ∧
    getID (Iface.float64 { mant := 9223372036854775808, exp := 0 })
      = (-9223372036854775808, true) ∧
    (golib.UnmarshalJdtResponse exBigNumberId).map (fun r => getID r.ID)
      = some (9007199254740992, true) ∧
    (golib.UnmarshalJdtResponse exBigStringId).map (fun r => getID r.ID)
      = some (9007199254740993, true) := by
  decide

/-- C12 as amended (id normalisation). For every integer `n` in the range of `int`
(from -2^63 up to 2^63 - 1), `getID` applied to the string that holds the decimal
representation of `n` and `getID` applied to a `float64` whose value is `n` both return
`(n, true)`. For an id that is absent or `null`, a boolean, an object or an array, and
for a string that `strconv.Atoi` rejects, `getID` returns `(0, false)`; and whenever
`getID` returns `ok = false` for the id of a decoded response, the server-to-client
iteration writes the frame to the client unchanged and changes nothing else. -/
theorem C12_id_normalisation (n : Int) (h1 : -(2 ^ 63 : Int) ≤ n) (h2 : n < (2 ^ 63 : Int)) :
    getID (Iface.string (encodeInt n)) = (n, true) ∧
    getID (Iface.float64 { mant := n, exp := 0 }) = (n, true) ∧
    getID Iface.nil = (0, false) ∧
    (∀ b : Bool, getID (Iface.bool b) = (0, false)) ∧
    getID Iface.composite = (0, false) ∧
    (∀ (v : Bytes) (e : Error), Atoi v = Except.error e → getID (Iface.string v) = (0, false)) ∧
    (∀ (L : Library) (s : State) (body : Bytes) (r : jdtResponse),
      L.UnmarshalJdtResponse body = some r → (getID r.ID).2 = false →
      serverStep L s body
        = Outcome.done s { stdout := frame body, serverStdin := [], files := [] }) := by
  refine ⟨getID_string_integer n h1 h2, getID_integer n h1 h2, rfl, fun _ => rfl, rfl, ?_, ?_⟩
  · intro v e hv
    simp [getID, hv]
  · intro L s body r hdec hid
    exact serverStep_not_intercepted L s body r hdec (Or.inl hid)

set_option maxRecDepth 1000000 in
/-- Witness for C12: the string `"-7"` and the number -7 both give `(-7, true)`; a
response whose id is `true` arrives while a continuation is pending and is forwarded to
the client unchanged. -/
theorem C12_id_normalisation_witness :
    encodeInt (-7) = ascii "-7" ∧
    getID (Iface.string (encodeInt (-7))) = (-7, true) ∧
    getID (Iface.float64 { mant := -7, exp := 0 }) = (-7, true) ∧
    serverStep golib exPending exBoolId
      = Outcome.done exPending { stdout := frame exBoolId, serverStdin := [], files := [] } :=
  have h := C12_id_normalisation (-7) (by norm_num) (by norm_num)
  ⟨by decide, h.1, h.2.1, h.2.2.2.2.2.2 golib exPending exBoolId
    { Jsonrpc := ascii "2.0", ID := Iface.bool true, Result := ascii "[]" }
    (by decide) (by decide)⟩

set_option maxRecDepth 1000000 in
/-- Counterexample to C13 as stated: the client sends a `textDocument/references` request
for the materialized file; its `params` have the member `context`. The request is
forwarded with the URI replaced, and without the member `context`. -/
theorem C13_member_lost_counterexample :
    clientStep golib exMaterialized exReferences
      = Outcome.done exMaterialized
          { stdout := [], serverStdin := frame exReferencesForwarded, files := [] } ∧
    (getMember exReferences "params").bind (fun p => getMember p "context")
      = some (ascii "\x7b\"includeDeclaration\":true\x7d") ∧
    (getMember exReferencesForwarded "params").bind (fun p => getMember p "context") = none := by
  decide

/-- C13 as amended (client-to-server rewriting). For every client payload that decodes as
a `stdRequest`: if `params.textDocument.uri` is a key of the URI rewrite table, the
payload forwarded to the server is the encoding of a `stdRequest` with the decoded
`jsonrpc`, `method`, `params.position` and `id` and with `params.textDocument.uri`
replaced by the table's value (members of the payload that `stdRequest` does not declare
are not part of it); if it is not a key, the forwarded payload is the received payload,
byte for byte. In both cases nothing is written to the client, no file is written, and
both tables are unchanged. -/
theorem C13_client_rewrite (L : Library) (s : State) (body : Bytes) (req : stdRequest)
    (hdec : L.UnmarshalStdRequest body = some req) :
    (∀ v : Bytes, Table.get req.Params.TextDocument.URI s.m = some v →
      clientStep L s body = Outcome.done s
        { stdout := []
          serverStdin := frame (L.MarshalStdRequest
            { Jsonrpc := req.Jsonrpc
              Method := req.Method
              Params := { Position := req.Params.Position, TextDocument := { URI := v } }
              ID := req.ID })
          files := [] }) ∧
    (Table.get req.Params.TextDocument.URI s.m = none →
      clientStep L s body
        = Outcome.done s { stdout := [], serverStdin := frame body, files := [] }) := by
  refine ⟨fun v hget => clientStep_rewrite L s body req v hdec hget, ?_⟩
  intro hget
  unfold clientStep
  rw [hdec]
  simp only [hget]

set_option maxRecDepth 1000000 in
/-- Witness for C13: a definition request inside the materialized file is forwarded with
the virtual URI, and a hover request for another file is forwarded unchanged. -/
theorem C13_client_rewrite_witness :
    clientStep golib exMaterialized exClientRequest
      = Outcome.done exMaterialized
          { stdout := [], serverStdin := frame exClientForwarded, files := [] } ∧
    clientStep golib exMaterialized exOtherRequest
      = Outcome.done exMaterialized
          { stdout := [], serverStdin := frame exOtherRequest, files := [] } :=
  ⟨(C13_client_rewrite golib exMaterialized exClientRequest
      { Jsonrpc := ascii "2.0", Method := ascii "textDocument/definition",
        Params := { Position := { Line := 1, Character := 2 },
                    TextDocument := { URI := ascii "file:///tmp/pkg/Foo.java" } },
        ID := ascii "8" } (by decide)).1 (ascii "jdt://contents/pkg/Foo.class") (by decide),
   (C13_client_rewrite golib exMaterialized exOtherRequest
      { Jsonrpc := ascii "2.0", Method := ascii "textDocument/hover",
        Params := { Position := { Line := 1, Character := 2 },
                    TextDocument := { URI := ascii "file:///home/u/Bar.java" } },
        ID := ascii "9" } (by decide)).2 (by decide)⟩

/-- C14 (a correlated response is consumed exactly once). For every server response that
decodes to an envelope whose id resolves to a key `k` of the table of continuations, one
iteration applies the continuation stored at `k` to the response, once: the state and the
writes of the iteration are those of that one application, so the raw frame is not
forwarded and the client receives only what the continuation writes. The table of
continuations afterwards has no entry for `k` and binds every other key as before;
consequently a second response with the same id finds no entry: no continuation runs for
it (the URI rewrite table stays as it is and no file is written), and it is forwarded or
handled as a new definition response. -/
theorem C14_consumed_once (L : Library) (s : State) (body : Bytes) (r : jdtResponse)
    (c : Closure) (hdec : L.UnmarshalJdtResponse body = some r) (hid : (getID r.ID).2 = true)
    (hpend : Table.get (getID r.ID).1 s.pending = some c) :
    serverStep L s body = Outcome.done
        { m := (callback L c s.m r).1, pending := Table.delete (getID r.ID).1 s.pending }
        (callback L c s.m r).2 ∧
      (callback L c s.m r).2.stdout
        = (match L.MarshalStdResponse (rewrittenResponse c) with
           | some data => frame data
           | none => []) ∧
      (callback L c s.m r).2.serverStdin = [] ∧
      Table.get (getID r.ID).1 (Table.delete (getID r.ID).1 s.pending) = none ∧
      (∀ k, k ≠ (getID r.ID).1 →
        Table.get k (Table.delete (getID r.ID).1 s.pending) = Table.get k s.pending) ∧
      (∀ (body2 : Bytes) (r2 : jdtResponse) (s2 : State) (o2 : Output),
        L.UnmarshalJdtResponse body2 = some r2 → getID r2.ID = getID r.ID →
        serverStep L
          { m := (callback L c s.m r).1, pending := Table.delete (getID r.ID).1 s.pending }
          body2 = Outcome.done s2 o2 →
        s2.m = (callback L c s.m r).1 ∧ o2.files = [] ∧
          (o2.stdout = frame body2 ∨ o2.stdout = [])) := by
  refine ⟨serverStep_pending L s body r c hdec hid hpend, rfl, rfl,
    Table.get_delete_self _ _, fun k hk => Table.get_delete_other _ _ _ hk, ?_⟩
  intro body2 r2 s2 o2 hdec2 hid2 hstep
  exact serverStep_no_continuation L _ s2 body2 r2 o2 hdec2
    (fun _ => by rw [hid2]; exact Table.get_delete_self _ _) hstep

set_option maxRecDepth 1000000 in
/-- Witness for C14: the contents of `pkg/Foo.class` arrive with id 6 while the
continuation for it is pending; the same response arriving a second time is forwarded to
the client unchanged. -/
theorem C14_consumed_once_witness :
    serverStep golib exPending exContents
        = Outcome.done exMaterialized
            { stdout := frame exRewritten, serverStdin := [],
              files := exFiles (ascii "class Foo \x7b\x7d\n") } ∧
      Table.get 6 exMaterialized.pending = none ∧
      serverStep golib exMaterialized exContents
        = Outcome.done exMaterialized
            { stdout := frame exContents, serverStdin := [], files := [] } :=
  have h := C14_consumed_once golib exPending exContents
    { Jsonrpc := ascii "2.0", ID := Iface.float64 { mant := 6, exp := 0 },
      Result := ascii "\"class Foo \x7b\x7d\\n\"" }
    exClosure (by decide) (by decide) (by decide)
  ⟨h.1, h.2.2.2.1, by decide⟩

/-- C15 fails on the code: for every server response with a resolved id for which nothing
is pending, whose non-empty result decodes to a list of locations, and whose first URI
`url.Parse` rejects, the iteration panics: `run` reports the invalid URI and then reads
`uri.Path` through the nil pointer that `url.Parse` returned. Nothing is forwarded to the
client. -/
theorem C15_invalid_uri_panics (L : Library) (s : State) (body : Bytes) (r : jdtResponse)
    (first : jdtResult) (rest : List jdtResult)
    (hdec : L.UnmarshalJdtResponse body = some r) (hid : (getID r.ID).2 = true)
    (hpend : Table.get (getID r.ID).1 s.pending = none) (hres : r.Result.length ≠ 0)
    (hlist : L.UnmarshalDefinitionResult r.Result = some (first :: rest))
    (hparse : L.Parse first.URI = none) :
    serverStep L s body = Outcome.panic ∧
      ∀ es : List Event, run L s (Event.server body :: es) = Outcome.panic := by
  have h := serverStep_parse_error L s body r first rest hdec hid hpend hres hlist hparse
  refine ⟨h, fun es => ?_⟩
  simp only [run, step, h]

set_option maxRecDepth 1000000 in
/-- Witness for C15: the definition answer with id 5 reports a location with the URI
`:foo`, which `url.Parse` rejects (missing protocol scheme); the iteration panics. -/
theorem C15_invalid_uri_panics_witness :
    golib.Parse (ascii ":foo") = none ∧
    serverStep golib State.init exDefinitionBadURI = Outcome.panic ∧
    run golib State.init [Event.server exDefinitionBadURI, Event.server exNotification]
      = Outcome.panic :=
  have h := C15_invalid_uri_panics golib State.init exDefinitionBadURI
    { Jsonrpc := ascii "2.0", ID := Iface.float64 { mant := 5, exp := 0 },
      Result := ascii "[\x7b\"uri\":\":foo\",\"range\":\x7b\"start\":\x7b\"line\":0,\"character\":0\x7d,\"end\":\x7b\"line\":0,\"character\":3\x7d\x7d\x7d]" }
    { URI := ascii ":foo", Range := exRange } []
    (by decide) (by decide) (by decide) (by decide) (by decide) (by decide)
  ⟨by decide, h.1, h.2 [Event.server exNotification]⟩

/-- C16 fails on the code: for every stream that starts with a header block declaring a
length `n` above the largest size `make` accepts (2^48) and within the range of `int`,
whatever follows the block - in particular fewer than `n` bytes and the end of the
stream - `readLSPMessage` panics in `make([]byte, contentLength)` and returns neither an
error nor a body. -/
theorem C16_oversized_length_panics (before after : List Bytes) (k n : Nat) (rest : Bytes)
    (hb : ∀ l ∈ before, OtherHeader l) (ha : ∀ l ∈ after, OtherHeader l)
    (hlo : maxAlloc < n) (hhi : n < 2 ^ 63) :
    readLSPMessage (headerBlock before k n after ++ rest) = ReadResult.panic := by
  rw [readLSPMessage_block before after k n rest hb ha hhi]
  have h : (n : Int) < 0 ∨ (maxAlloc : Int) < (n : Int) := Or.inr (by exact_mod_cast hlo)
  unfold readBody
  rw [if_pos h]

set_option maxRecDepth 1000000 in
/-- Witness for C16: the header declares 2^48 + 1 bytes and three bytes follow before the
end of the stream; `readLSPMessage` panics. For comparison, a declared length of 2^63,
which `strconv.Atoi` rejects, is returned as an error, and so is a declared length of 5
followed by three bytes. -/
theorem C16_oversized_length_panics_witness :
    headerBlock [] 1 281474976710657 [] ++ ascii "abc"
      = ascii "Content-Length: 281474976710657\r\n\r\nabc" ∧
    readLSPMessage (headerBlock [] 1 281474976710657 [] ++ ascii "abc") = ReadResult.panic ∧
    readLSPMessage (ascii "Content-Length: 9223372036854775808\r\n\r\nabc")
      = ReadResult.error Error.NumError (ascii "\r\nabc") ∧
    readLSPMessage (ascii "Content-Length: 5\r\n\r\nabc")
      = ReadResult.error Error.ErrUnexpectedEOF [] :=
  ⟨by decide,
   C16_oversized_length_panics [] [] 1 281474976710657 (ascii "abc")
    (by decide) (by decide) (by decide) (by norm_num),
   by decide, by decide⟩

set_option maxRecDepth 1000000 in
/-- Counterexample to C17 as stated: after the header `content-length: 3` or
`CONTENT-LENGTH: 3`, `readLSPMessage` returns an empty body and leaves the three bytes in
the stream; only the spelling `Content-Length` makes it return them. -/
theorem C17_case_sensitive_counterexample :
    readLSPMessage (ascii "content-length: 3\r\n\r\nabc") = ReadResult.ok [] (ascii "abc") ∧
    readLSPMessage (ascii "CONTENT-LENGTH: 3\r\n\r\nabc") = ReadResult.ok [] (ascii "abc") ∧
    readLSPMessage (ascii "Content-Length: 3\r\n\r\nabc") = ReadResult.ok (ascii "abc") [] := by
  decide

/-- C17 as amended (the key of the length header is matched exactly). For a header block
of one line - a letter-case variant of the key `Content-Length`, `:`, any number of
spaces, and the decimal digits of the length of `body` - followed by the empty line, by
`body` (of a size that `make` allocates) and by `rest`: if the key is spelled
`Content-Length`, `readLSPMessage` returns `body` and leaves `rest`; for every other
letter-case variant it takes the line for another header, keeps the length 0, and returns
an empty body, leaving `body` and `rest` in the stream. -/
theorem C17_length_header_case (key : Bytes) (k : Nat) (body rest : Bytes)
    (hkey : CaseVariant key) (hn : body.length ≤ maxAlloc) :
    (key = ascii "Content-Length" →
      readLSPMessage (key ++ 58 :: (List.replicate k 32 ++ decimal body.length ++ crlf)
          ++ crlf ++ (body ++ rest))
        = ReadResult.ok body rest) ∧
    (key ≠ ascii "Content-Length" →
      readLSPMessage (key ++ 58 :: (List.replicate k 32 ++ decimal body.length ++ crlf)
          ++ crlf ++ (body ++ rest))
        = ReadResult.ok [] (body ++ rest)) := by
  have hn63 : body.length < 2 ^ 63 := by
    unfold maxAlloc at hn
    omega
  constructor
  · intro hk
    have hshape : key ++ 58 :: (List.replicate k 32 ++ decimal body.length ++ crlf)
        ++ crlf ++ (body ++ rest) = headerBlock [] k body.length [] ++ (body ++ rest) := by
      rw [hk]
      have hc : contentLengthKey = ascii "Content-Length" ++ [58] := by decide
      simp [headerBlock, joinLines, lengthHeader, hc]
    rw [hshape, readLSPMessage_block [] [] k body.length _ (by simp) (by simp) hn63]
    exact readBody_full body rest hn
  · intro hk
    have hv : 10 ∉ List.replicate k 32 ++ decimal body.length := by
      intro h
      rcases List.mem_append.mp h with h | h
      · have := List.eq_of_mem_replicate h
        omega
      · have := isDigit_bounds (decimal_digits _ 10 h)
        omega
    have hother := CaseVariant_other key _ hkey hk hv
    have hshape : key ++ 58 :: (List.replicate k 32 ++ decimal body.length ++ crlf)
        ++ crlf ++ (body ++ rest)
        = (key ++ 58 :: ((List.replicate k 32 ++ decimal body.length) ++ crlf))
          ++ (crlf ++ (body ++ rest)) := by
      simp
    rw [hshape, readLSPMessage_fuel _ 1, readHeaders_other _ _ _ _ hother, readHeaders_crlf]
    exact readBody_full [] (body ++ rest) (by simp)

set_option maxRecDepth 1000000 in
/-- Witness for C17: the header `content-length: 3` followed by `abc`, and the header
`Content-Length: 3` followed by `abc`. -/
theorem C17_length_header_case_witness :
    readLSPMessage (ascii "content-length: 3\r\n\r\nabc") = ReadResult.ok [] (ascii "abc") ∧
    readLSPMessage (ascii "Content-Length: 3\r\n\r\nabc") = ReadResult.ok (ascii "abc") [] :=
  ⟨(C17_length_header_case (ascii "content-length") 1 (ascii "abc") [] (by decide)
      (by decide)).2 (by decide),
   (C17_length_header_case (ascii "Content-Length") 1 (ascii "abc") [] (by decide)
      (by decide)).1 (by decide)⟩

/-- C18 (the intercept step). For every server response that decodes to an envelope with
a resolved id for which nothing is pending, and whose non-empty result decodes to a list
of locations whose first URI parses with the scheme `jdt`, one iteration writes nothing
to the client, writes to the server exactly one frame, the encoding of a request with the
method `java/classFileContents`, with `params.uri` the first location's URI string and
with the allocated id (the id of the response plus one), and changes the table of
continuations only at that id, where the new continuation is stored; the URI rewrite
table is as before and no file is written. -/
theorem C18_intercept_step (L : Library) (s : State) (body : Bytes) (r : jdtResponse)
    (first : jdtResult) (uri : URL)
    (hdec : L.UnmarshalJdtResponse body = some r) (hint : Intercepted L s.pending r first uri) :
    ∃ s1, serverStep L s body = Outcome.done s1
        { stdout := []
          serverStdin := frame (L.MarshalClassReq
            { id := wrap64 ((getID r.ID).1 + 1)
              jsonrpc := ascii "2.0"
              method := ascii "java/classFileContents"
              params := { uri := first.URI } })
          files := [] } ∧
      s1.m = s.m ∧
      Table.get (wrap64 ((getID r.ID).1 + 1)) s1.pending
        = some { id := (getID r.ID).1, location := first, uri := uri } ∧
      (∀ k, k ≠ wrap64 ((getID r.ID).1 + 1) → Table.get k s1.pending = Table.get k s.pending) :=
  ⟨_, serverStep_intercepted L s body r first uri hdec hint, rfl, Table.get_set_self _ _ _,
    fun _ hk => Table.get_set_other _ _ _ _ hk⟩

set_option maxRecDepth 1000000 in
/-- Witness for C18: the definition answer with id 5 arrives at the start; the request
`exClassReq` with id 6 is sent to the server and the continuation is stored at 6. -/
theorem C18_intercept_step_witness :
    ∃ s1, serverStep golib State.init exDefinition = Outcome.done s1
        { stdout := [], serverStdin := frame exClassReq, files := [] } ∧
      s1.m = [] ∧ Table.get 6 s1.pending = some exClosure :=
  have h := C18_intercept_step golib State.init exDefinition
    { Jsonrpc := ascii "2.0", ID := Iface.float64 { mant := 5, exp := 0 }, Result := exLocations }
    exLocation exURL (by decide)
    ⟨by decide, by decide, by decide, ⟨[], by decide⟩, by decide, by decide⟩
  h.elim (fun s1 h1 => ⟨s1, h1.1, h1.2.1, h1.2.2.1⟩)

set_option maxRecDepth 1000000 in
/-- Counterexample to C19 as stated: the text of the class file is `s = "a\nb";`, a Java
string literal that holds a backslash followed by `n`. The result of the response encodes
that text, `strconv.Unquote` returns it, and the file is written with a newline byte in
place of the backslash and the `n`. -/
theorem C19_backslash_counterexample :
    (golib.UnmarshalJdtResponse exContentsLiteral).bind (fun r => golib.Unquote r.Result)
      = some (ascii "s = \"a\\nb\";") ∧
    serverStep golib exPending exContentsLiteral
      = Outcome.done exMaterialized
          { stdout := frame exRewritten, serverStdin := [],
            files := exFiles (ascii "s = \"a\nb\";") } ∧
    ascii "s = \"a\nb\";" ≠ ascii "s = \"a\\nb\";" := by
  decide

/-- C19 as amended (materialized content). For every response to the injected request
whose result `strconv.Unquote` decodes to the text `text`, the bytes written to the local
file are `text` with every backslash followed by `n` replaced by a newline and then every
backslash followed by `t` replaced by a tab. They are exactly `text` when `text` holds no
backslash followed by `n` or `t`. -/
theorem C19_materialized_content (L : Library) (s : State) (body : Bytes) (resp : jdtResponse)
    (c : Closure) (text : Bytes)
    (hdec : L.UnmarshalJdtResponse body = some resp) (hid : (getID resp.ID).2 = true)
    (hpend : Table.get (getID resp.ID).1 s.pending = some c)
    (hunq : L.Unquote resp.Result = some text) :
    ∃ s1 o1, serverStep L s body = Outcome.done s1 o1 ∧
      o1.files = [FileOp.MkdirAll (L.Dir (tmpFileName c.uri)) 0o755,
                  FileOp.WriteFile (tmpFileName c.uri)
                    (ReplaceAll (ascii "\\t") [9] 0 (ReplaceAll (ascii "\\n") [10] 0 text))
                    0o400] ∧
      (occursIn (ascii "\\n") text = false → occursIn (ascii "\\t") text = false →
        o1.files = [FileOp.MkdirAll (L.Dir (tmpFileName c.uri)) 0o755,
                    FileOp.WriteFile (tmpFileName c.uri) text 0o400]) := by
  have hfile : fileContent L resp
      = ReplaceAll (ascii "\\t") [9] 0 (ReplaceAll (ascii "\\n") [10] 0 text) := by
    simp only [fileContent, hunq]
  refine ⟨_, _, serverStep_pending L s body resp c hdec hid hpend, ?_, ?_⟩
  · simp only [callback, hfile]
  · intro h1 h2
    simp only [callback, hfile]
    rw [ReplaceAll_absent _ _ _ h1, ReplaceAll_absent _ _ _ h2]

set_option maxRecDepth 1000000 in
/-- Witness for C19: the result `"class Foo {}\n"` writes the twelve characters
`class Foo {}` followed by one newline byte. -/
theorem C19_materialized_content_witness :
    ∃ s1 o1, serverStep golib exPending exContents = Outcome.done s1 o1 ∧
      o1.files = [FileOp.MkdirAll (ascii "/tmp/pkg") 0o755,
                  FileOp.WriteFile (ascii "/tmp/pkg/Foo.java")
                    (ascii "class Foo \x7b\x7d" ++ [10]) 0o400] :=
  have h := C19_materialized_content golib exPending exContents
    { Jsonrpc := ascii "2.0", ID := Iface.float64 { mant := 6, exp := 0 },
      Result := ascii "\"class Foo \x7b\x7d\\n\"" }
    exClosure (ascii "class Foo \x7b\x7d\n") (by decide) (by decide) (by decide) (by decide)
  h.elim (fun s1 h1 => h1.elim (fun o1 h2 =>
    ⟨s1, o1, h2.1, h2.2.2 (by decide) (by decide)⟩))

end JdtlsWrapper
